import Mathlib

/-!
# Verification of the anki-words-builder deck backup/restore engine

Shallow embedding of the backup/restore synchronization engine of the
`anki-words-builder` repository:

* `src/services/cards.py`  — card identity, restore policies, merge engine,
  card-group upsert;
* `src/services/decks.py`  — deck lookup by Anki id, backup metadata apply,
  deck creation;
* `src/services/backups.py` — archive encode (`create_backup_archive`)
  and archive import (`import_backup`), conflict detection;
* `src/services/exporter.py` — the `.apkg` exporter's audio-side
  normalization.

Modelling conventions:

* UUID values are modelled as strings in canonical form.  A string parses as
  a UUID (`uuid.UUID(s)` succeeds) exactly when it starts with `"uuid:"`;
  random `uuid.uuid4()` values are minted from a fresh counter threaded
  through every stateful operation (`mintUuid`), and name-based
  `uuid.uuid5(ns, name)` is modelled by a fixed deterministic digest of the
  namespace and the name (`uuid5`).  The claims proved here depend only on
  determinism of the digest and on the seed strings, never on digest values.
* Timestamps (Python `datetime`) are abstract ticks (`Nat`); a `datetime`
  value is always truthy, so an optional timestamp is truthy exactly when it
  is `some`.  `_serialize_timestamp` / `_parse_timestamp` (ISO-8601
  round-tripping) are abstracted to the identity on these ticks.
* Audio blobs are byte lists; Python truthiness of `Optional[bytes]` is
  `some` of a non-empty list.
* JSON payload dicts are association lists of string pairs; they pass
  through the engine unchanged.  Deck `field_schema` / `prompt_templates`
  JSON values are passed through the import pipeline opaquely, so they are
  modelled as free terms: the operations applied to them
  (`normalize_field_schema`, the defaults, `create_deck`'s audio fix-up)
  are uninterpreted constructors.
* The relational `cards` / `decks` tables are lists of rows; `INSERT`
  appends, `DELETE ... WHERE` filters.  `cards.id` is a primary key, so a
  well-formed table has pairwise distinct row ids.
* The zip container is a list of named members.  Member names are
  structural (`manifest.json`, or `media/{card_id}_{side}.bin` represented
  as `MemberName.media card_id side`); the textual path scheme is injective
  in `(card_id, side)`, so structural equality is faithful.  The content of
  the manifest member is either a structured manifest (valid JSON of the
  manifest shape) or `garbage` (content `json.loads` rejects).
-/

/-! ## Primitives: bytes, truthiness, UUID model -/

/-- Raw audio bytes (Python `bytes`). -/
def Bytes : Type := List Nat

instance : DecidableEq Bytes := by
  unfold Bytes
  infer_instance

instance : BEq Bytes := ⟨fun a b => decide (a = b)⟩

deriving instance DecidableEq for Except

/-- Python truthiness of an `Optional[bytes]`: `None` and `b""` are falsy. -/
def truthyBytes : Option Bytes → Bool
  | none => false
  | some b => !(List.isEmpty b)

/-- Python truthiness of an `Optional[str]`: `None` and `""` are falsy. -/
def truthyStr : Option String → Bool
  | none => false
  | some s => !(s.isEmpty)

/-- Python `a or b` on optional strings. -/
def pyOrStr (a b : Option String) : Option String :=
  if truthyStr a then a else b

/-- A string parses as a UUID (`uuid.UUID(str(x))` succeeds) exactly when it
is in canonical form, modelled by the `"uuid:"` marker. -/
def isUuidStr (s : String) : Bool := decide (s.data.take 5 = "uuid:".data)

/-- `uuid.uuid4()`: a fresh random UUID, modelled by a counter supply.
Distinct counter values give distinct identifiers (collision-freeness of
random UUIDs); the unary encoding makes that injectivity provable. -/
def mintUuid (n : Nat) : String := "uuid:v4-" ++ String.mk (List.replicate n 'x')

/-- Deterministic digest of a string, standing in for the SHA-1 digest
inside `uuid.uuid5`. -/
def strDigest (s : String) : Nat :=
  s.foldl (fun h c => h * 131 + c.toNat) 7

/-- `uuid.uuid5(namespace, name)`: a name-based UUID, a pure deterministic
digest of the namespace and the name. -/
def uuid5 (ns name : String) : String :=
  "uuid:v5-" ++ toString (strDigest (ns ++ "|" ++ name))

/-- `uuid.NAMESPACE_URL`. -/
def NAMESPACE_URL : String := "uuid:ns-url"

/-- `uuid.NAMESPACE_DNS`. -/
def NAMESPACE_DNS : String := "uuid:ns-dns"

theorem mintUuid_isUuidStr (n : Nat) : isUuidStr (mintUuid n) = true := by
  simp only [isUuidStr, mintUuid, String.data_append, decide_eq_true_eq]
  rw [List.take_append_of_le_length (by decide)]
  decide

theorem mintUuid_injective : Function.Injective mintUuid := by
  intro m n h
  simp only [mintUuid] at h
  have hd := congrArg String.data h
  simp only [String.data_append] at hd
  have := List.append_cancel_left hd
  have hlen := congrArg List.length this
  simpa using hlen

/-! ## Data model: card and deck rows, the database -/

/-- A card payload: the JSON field map, as an association list. -/
def Payload : Type := List (String × String)

instance : DecidableEq Payload := by
  unfold Payload
  infer_instance

/-- Free-term model of deck `field_schema` JSON values: the import pipeline
only ever passes them to `normalize_field_schema` or replaces them with
`default_field_schema()`, so those operations are uninterpreted
constructors over opaque archive tokens. -/
inductive SchemaVal : Type where
  /-- an arbitrary schema value carried by an archive or a deck row -/
  | token (n : Nat)
  /-- `decks.normalize_field_schema v` -/
  | normalized (v : SchemaVal)
  /-- `decks.default_field_schema()` -/
  | defaults
deriving DecidableEq, Repr

/-- Free-term model of deck `prompt_templates` JSON values (passed through
verbatim by the import pipeline; `create_deck` applies an audio-config
fix-up). -/
inductive PromptVal : Type where
  /-- an arbitrary prompt-templates value carried by an archive or a deck -/
  | token (n : Nat)
  /-- `decks.default_prompt_templates()` -/
  | defaults
  /-- `create_deck`'s `prompts["audio"] = {...}` normalization applied -/
  | withAudioFixup (p : PromptVal)
deriving DecidableEq, Repr

/-- One row of the `cards` table. -/
structure CardRow where
  id : String
  card_group_id : String
  entry_anki_id : Option String
  deck_id : String
  owner_id : String
  direction : String
  payload : Payload
  front_audio : Option Bytes
  back_audio : Option Bytes
  audio_filename : Option String
  created_at : Option Nat
  updated_at : Option Nat
deriving DecidableEq

/-- One row of the `decks` table. -/
structure DeckRow where
  id : String
  owner_id : String
  anki_id : Option String
  name : String
  target_language : String
  field_schema : SchemaVal
  prompt_templates : PromptVal
  created_at : Nat
  updated_at : Nat
deriving DecidableEq

/-- The database state: the two tables plus the fresh-UUID counter supply
modelling `uuid.uuid4()`. -/
structure Db where
  decks : List DeckRow
  cards : List CardRow
  ctr : Nat
deriving DecidableEq

/-! ## Identity deriver (`src/services/cards.py`) -/

/-- `cards.CARD_GUID_NAMESPACE = uuid5(NAMESPACE_DNS, "anki-words-builder/card")`. -/
def CARD_GUID_NAMESPACE : String := uuid5 NAMESPACE_DNS "anki-words-builder/card"

/-- `cards.stable_card_guid(entry_anki_id, direction)`: hash the fixed
namespace with the seed `"{entry_anki_id}:{direction}"`.  The source applies
no validation of `direction` whatsoever. -/
def stable_card_guid (entry_anki_id direction : String) : String :=
  uuid5 CARD_GUID_NAMESPACE (entry_anki_id ++ ":" ++ direction)

/-- The Python call `stable_card_guid(e, d)` as an `Except` (raised
exception vs. returned value): the source body is a single hash
expression with no `raise` and no guard, so every call returns. -/
def stable_card_guid_call (entry_anki_id direction : String) :
    Except String String :=
  Except.ok (stable_card_guid entry_anki_id direction)

/-- Modelled from the spec: `card_guid` as §4.1 describes it, with
"no failure modes other than invalid direction (reject anything not in
{forward, backward})". -/
def card_guid_specified (entry_anki_id direction : String) :
    Except String String :=
  if direction = "forward" ∨ direction = "backward" then
    Except.ok (uuid5 CARD_GUID_NAMESPACE (entry_anki_id ++ ":" ++ direction))
  else
    Except.error "invalid direction"

example : stable_card_guid "uuid:v4-0" "forward" =
    stable_card_guid "uuid:v4-0" "forward" := rfl

/-! ## Restore engine (`src/services/cards.py`)

Incoming restore rows and the per-entry grouping.  Directions are
constrained to `{"forward", "backward"}` by the grouping filter and by the
`cards.direction` CHECK constraint, so per-direction dicts are modelled by a
two-slot record `DirMap`; a row with any other direction never reaches a
slot (the source would store it under a key the merge never reads). -/

/-- A per-direction map (`dict` keyed by direction). -/
structure DirMap (α : Type) where
  forward : Option α := none
  backward : Option α := none
deriving DecidableEq

/-- Read the slot for a direction string. -/
def DirMap.get {α : Type} (m : DirMap α) (d : String) : Option α :=
  if d = "forward" then m.forward
  else if d = "backward" then m.backward
  else none

/-- Write the slot for a direction string (other directions are dropped;
see the module docstring). -/
def DirMap.set {α : Type} (m : DirMap α) (d : String) (a : α) : DirMap α :=
  if d = "forward" then { m with forward := some a }
  else if d = "backward" then { m with backward := some a }
  else m

/-- One element of the `cards` list handed to
`restore_cards_with_policy` (the dicts built by `import_backup`). -/
structure RestoreCard where
  id : Option String := none
  card_group_id : Option String := none
  entry_anki_id : Option String := none
  direction : Option String := none
  payload : Option Payload := none
  created_at : Option Nat := none
  updated_at : Option Nat := none
  front_audio : Option Bytes := none
  back_audio : Option Bytes := none
  audio_filename : Option String := none
deriving DecidableEq

/-- The normalized per-direction card built by `_group_restore_payload`
(the `direction` key is carried by the slot it is stored in). -/
structure NormCard where
  payload : Payload
  created_at : Option Nat
  updated_at : Option Nat
  front_audio : Option Bytes
  back_audio : Option Bytes
  audio_filename : Option String
deriving DecidableEq

/-- The record `_load_existing_entries` keeps per existing direction. -/
structure ExistRec where
  id : String
  updated_at : Option Nat
deriving DecidableEq

/-- One value of the `_load_existing_entries` dict. -/
structure ExistEntry where
  group_id : String
  cards : DirMap ExistRec
deriving DecidableEq

/-- Ordered association list standing for a Python insertion-ordered dict:
membership test. -/
def containsA {β : Type} (l : List (String × β)) (k : String) : Bool :=
  l.any (fun p => p.1 == k)

/-- Dict read (`d.get(k)`). -/
def lookupA {β : Type} (l : List (String × β)) (k : String) : Option β :=
  (l.find? (fun p => p.1 == k)).map (fun p => p.2)

/-- Replace the value at the first matching key (in-place dict value
update). -/
def updateA {β : Type} (l : List (String × β)) (k : String) (f : β → β) :
    List (String × β) :=
  match l with
  | [] => []
  | p :: t => if p.1 = k then (p.1, f p.2) :: t else p :: updateA t k f

/-- Dict assignment `d[k] = v`: overwrite in place, else append. -/
def upsertA {β : Type} (l : List (String × β)) (k : String) (v : β) :
    List (String × β) :=
  if containsA l k then updateA l k (fun _ => v) else l ++ [(k, v)]

/-- `cards._group_restore_payload`, with the `uuid.uuid4()` fallback for
rows lacking every identity threaded through the fresh counter. -/
def groupRestoreGo : List RestoreCard → List (String × DirMap NormCard) →
    Nat → (List (String × DirMap NormCard)) × Nat
  | [], acc, ctr => (acc, ctr)
  | c :: rest, acc, ctr =>
    match c.direction with
    | none => groupRestoreGo rest acc ctr
    | some d =>
      if d = "forward" ∨ d = "backward" then
        let cand := pyOrStr c.entry_anki_id (pyOrStr c.card_group_id c.id)
        let keyCtr : String × Nat :=
          if truthyStr cand then (cand.getD "", ctr) else (mintUuid ctr, ctr + 1)
        let nc : NormCard :=
          { payload := c.payload.getD []
            created_at := c.created_at
            updated_at := match c.updated_at with
              | some t => some t
              | none => c.created_at
            front_audio := c.front_audio
            back_audio := c.back_audio
            audio_filename := c.audio_filename }
        let acc' :=
          if containsA acc keyCtr.1 then
            updateA acc keyCtr.1 (fun m => m.set d nc)
          else acc ++ [(keyCtr.1, DirMap.set ⟨none, none⟩ d nc)]
        groupRestoreGo rest acc' keyCtr.2
      else groupRestoreGo rest acc ctr

/-- `cards._group_restore_payload`. -/
def groupRestorePayload (cards : List RestoreCard) (ctr : Nat) :
    (List (String × DirMap NormCard)) × Nat :=
  groupRestoreGo cards [] ctr

/-- The dict key a stored row is grouped under by
`_load_existing_entries`: `row["entry_anki_id"] or row["card_group_id"]`. -/
def rowKey (r : CardRow) : String :=
  match r.entry_anki_id with
  | some s => if s.isEmpty then r.card_group_id else s
  | none => r.card_group_id

/-- The rows of one owner's deck, in table order
(`SELECT ... WHERE owner_id = .. AND deck_id = ..`). -/
def relevantCards (db : Db) (owner deck : String) : List CardRow :=
  db.cards.filter (fun r => decide (r.owner_id = owner ∧ r.deck_id = deck))

/-- Fold of `cards._load_existing_entries` over the selected rows. -/
def loadExistingGo : List CardRow → List (String × ExistEntry) →
    List (String × ExistEntry)
  | [], acc => acc
  | r :: rest, acc =>
    let k := rowKey r
    let acc₁ :=
      if containsA acc k then acc
      else acc ++ [(k, { group_id := r.card_group_id, cards := ⟨none, none⟩ })]
    let acc₂ := updateA acc₁ k
      (fun e => { e with cards := e.cards.set r.direction ⟨r.id, r.updated_at⟩ })
    loadExistingGo rest acc₂

/-- `cards._load_existing_entries`. -/
def loadExistingEntries (db : Db) (owner deck : String) :
    List (String × ExistEntry) :=
  loadExistingGo (relevantCards db owner deck) []

/-- The row `cards._insert_entry_card` builds for a normalized restore
card.  `payload or {}` is the identity on the already-normalized payload;
`Binary(x) if x else None` nulls empty audio blobs; a missing
`updated_at` falls back to `created_at`. -/
def restoreRow (owner deck group entryU direction : String) (c : NormCard)
    (cid : String) : CardRow :=
  { id := cid
    card_group_id := group
    entry_anki_id := some entryU
    deck_id := deck
    owner_id := owner
    direction := direction
    payload := c.payload
    front_audio := if truthyBytes c.front_audio then c.front_audio else none
    back_audio := if truthyBytes c.back_audio then c.back_audio else none
    audio_filename := c.audio_filename
    created_at := c.created_at
    updated_at := match c.updated_at with
      | some t => some t
      | none => c.created_at }

/-- `cards._insert_entry_card`: mint a fresh row id and append the row. -/
def insertEntryCard (owner deck group entryU direction : String)
    (c : NormCard) (db : Db) : String × Db :=
  let cid := mintUuid db.ctr
  (cid, { db with
    cards := db.cards ++ [restoreRow owner deck group entryU direction c cid]
    ctr := db.ctr + 1 })

/-- `cards._insert_entry_cards`: insert every direction of a bucket (dict
iteration order abstracted to forward-then-backward; no claim proved here
observes row order between the two directions of one entry). -/
def insertEntryCards (owner deck group entryU : String)
    (m : DirMap NormCard) (db : Db) : Nat × DirMap ExistRec × Db :=
  let stepF : Nat × Option ExistRec × Db :=
    match m.forward with
    | some c =>
      let r := insertEntryCard owner deck group entryU "forward" c db
      (1, some ⟨r.1, c.updated_at⟩, r.2)
    | none => (0, none, db)
  let stepB : Nat × Option ExistRec × Db :=
    match m.backward with
    | some c =>
      let r := insertEntryCard owner deck group entryU "backward" c stepF.2.2
      (1, some ⟨r.1, c.updated_at⟩, r.2)
    | none => (0, none, stepF.2.2)
  (stepF.1 + stepB.1, ⟨stepF.2.1, stepB.2.1⟩, stepB.2.2)

/-- The `prefer_newest` replacement test of `_merge_entry`:
`incoming_updated and (not existing_updated or incoming_updated >
existing_updated)` (`datetime` values are always truthy). -/
def condReplace (incoming existing : Option Nat) : Bool :=
  match incoming with
  | none => false
  | some t =>
    match existing with
    | none => true
    | some u => decide (u < t)

/-- One direction of `cards._merge_entry`. -/
def mergeStep (owner deck entryU d : String) (copt : Option NormCard)
    (st : Nat × ExistEntry × Db) : Nat × ExistEntry × Db :=
  let (n, ex, db) := st
  match copt with
  | none => (n, ex, db)
  | some c =>
    match ex.cards.get d with
    | none =>
      let r := insertEntryCard owner deck ex.group_id entryU d c db
      (n + 1, { ex with cards := ex.cards.set d ⟨r.1, c.updated_at⟩ }, r.2)
    | some x =>
      if condReplace c.updated_at x.updated_at then
        let db₁ : Db :=
          { db with cards := db.cards.filter (fun r => decide (r.id ≠ x.id)) }
        let r := insertEntryCard owner deck ex.group_id entryU d c db₁
        (n + 1, { ex with cards := ex.cards.set d ⟨r.1, c.updated_at⟩ }, r.2)
      else (n, ex, db)

/-- `cards._merge_entry` (dict iteration order abstracted to
forward-then-backward). -/
def mergeEntry (owner deck entryU : String) (ex : ExistEntry)
    (inc : DirMap NormCard) (db : Db) : Nat × ExistEntry × Db :=
  mergeStep owner deck entryU "backward" inc.backward
    (mergeStep owner deck entryU "forward" inc.forward (0, ex, db))

/-- `cards._safe_uuid` on the bucket's entry identity, threading the
`uuid.uuid4()` fallback through the counter in `db`. -/
def safeUuidOf (s : String) (db : Db) : String × Db :=
  if isUuidStr s then (s, db)
  else (mintUuid db.ctr, { db with ctr := db.ctr + 1 })

/-- `cards._apply_entry_restore`, written as a fold step over the
`(inserted, existing_entries, db)` state. -/
def applyEntryRestore (owner deck mode : String)
    (st : Nat × List (String × ExistEntry) × Db)
    (entry : String × DirMap NormCard) : Nat × List (String × ExistEntry) × Db :=
  let (n, map, db) := st
  let eu := safeUuidOf entry.1 db
  let entryU := eu.1
  let db₁ := eu.2
  match lookupA map entryU with
  | some ex =>
    if mode = "only_new" then (n, map, db₁)
    else if mode = "prefer_newest" then
      let r := mergeEntry owner deck entryU ex entry.2 db₁
      (n + r.1, updateA map entryU (fun _ => r.2.1), r.2.2)
    else
      let db₂ :=
        if mode ≠ "replace" then
          { db₁ with cards := db₁.cards.filter (fun r =>
              decide ¬(r.owner_id = owner ∧ r.deck_id = deck ∧
                r.card_group_id = ex.group_id)) }
        else db₁
      let r := insertEntryCards owner deck ex.group_id entryU entry.2 db₂
      (n + r.1, upsertA map entryU ⟨ex.group_id, r.2.1⟩, r.2.2)
  | none =>
    let gid := mintUuid db₁.ctr
    let db₂ := { db₁ with ctr := db₁.ctr + 1 }
    let r := insertEntryCards owner deck gid entryU entry.2 db₂
    (n + r.1, upsertA map entryU ⟨gid, r.2.1⟩, r.2.2)

/-- `cards.restore_cards_with_policy`. -/
def restoreCardsWithPolicy (owner deck : String) (cards : List RestoreCard)
    (mode : String) (db : Db) : Nat × Db :=
  let g := groupRestorePayload cards db.ctr
  let db₁ : Db := { db with ctr := g.2 }
  let start : List (String × ExistEntry) × Db :=
    if mode = "replace" then
      ([], { db₁ with cards := db₁.cards.filter (fun r =>
          decide ¬(r.owner_id = owner ∧ r.deck_id = deck)) })
    else (loadExistingEntries db₁ owner deck, db₁)
  let res := g.1.foldl (applyEntryRestore owner deck mode) (0, start.1, start.2)
  (res.1, res.2.2)

/-! ## Deck service (`src/services/decks.py`) -/

/-- `decks.get_deck_by_anki_id`: find the owner's deck with the given Anki
id; the returned copy carries a display-normalized `field_schema` (the
stored row is untouched). -/
def getDeckByAnkiId (db : Db) (owner ankiId : String) : Option DeckRow :=
  match db.decks.find? (fun d =>
      decide (d.owner_id = owner ∧ d.anki_id = some ankiId)) with
  | some d => some { d with field_schema := SchemaVal.normalized d.field_schema }
  | none => none

/-- `decks.get_deck`. -/
def getDeck (db : Db) (deckId owner : String) : Option DeckRow :=
  match db.decks.find? (fun d =>
      decide (d.id = deckId ∧ d.owner_id = owner)) with
  | some d => some { d with field_schema := SchemaVal.normalized d.field_schema }
  | none => none

/-- `decks.apply_backup_metadata`: overwrite the deck row's
name / target language / field schema / prompt templates and bump
`updated_at` (`NOW()` is the `now` parameter).  A supplied-but-falsy
(`none`) schema or templates value falls back to the defaults. -/
def applyBackupMetadata (db : Db) (owner deckId name targetLanguage : String)
    (fs : Option SchemaVal) (pt : Option PromptVal) (now : Nat) : Db :=
  let schema : SchemaVal := match fs with
    | some v => SchemaVal.normalized v
    | none => SchemaVal.defaults
  let prompts : PromptVal := match pt with
    | some p => p
    | none => PromptVal.defaults
  { db with decks := db.decks.map (fun d =>
      if d.id = deckId ∧ d.owner_id = owner then
        { d with
          name := name.trim
          target_language := targetLanguage.trim
          field_schema := schema
          prompt_templates := prompts
          updated_at := now }
      else d) }

/-- `decks.create_deck` as called from the import path (the
`audio_instructions` / `audio_enabled` parameters are `None` there and
only feed the audio fix-up, kept as the `withAudioFixup` constructor). -/
def createDeck (db : Db) (owner name targetLanguage : String)
    (fs : Option SchemaVal) (pt : Option PromptVal) (ankiId : Option String)
    (now : Nat) : DeckRow × Db :=
  let deckId := mintUuid db.ctr
  let ctr₁ := db.ctr + 1
  let ankiCtr : String × Nat := match ankiId with
    | some a => (a, ctr₁)
    | none => (mintUuid ctr₁, ctr₁ + 1)
  let schema : SchemaVal := match fs with
    | some v => SchemaVal.normalized v
    | none => SchemaVal.defaults
  let prompts : PromptVal := PromptVal.withAudioFixup (match pt with
    | some p => p
    | none => PromptVal.defaults)
  let row : DeckRow :=
    { id := deckId
      owner_id := owner
      anki_id := some ankiCtr.1
      name := name.trim
      target_language := targetLanguage.trim
      field_schema := schema
      prompt_templates := prompts
      created_at := now
      updated_at := now }
  (row, { db with decks := db.decks ++ [row], ctr := ankiCtr.2 })

/-! ## Archive codec (`src/services/backups.py`)

Member names are structural: `manifest.json`, and the media path
`media/{card_id}_{side}.bin` as `MemberName.media card_id side` (the
textual scheme is injective in `(card_id, side)`, since the two side
suffixes differ and string append is cancellative). -/

/-- A zip member name. -/
inductive MemberName : Type where
  | manifestJson
  | media (cardId side : String)
deriving DecidableEq

/-- The sanitized deck record inside a manifest. -/
structure ManifestDeck where
  id : Option String := none
  anki_id : Option String := none
  name : Option String := none
  target_language : Option String := none
  field_schema : Option SchemaVal := none
  prompt_templates : Option PromptVal := none
  created_at : Option Nat := none
  updated_at : Option Nat := none
deriving DecidableEq

/-- One card entry inside a manifest. -/
structure ManifestCard where
  id : Option String := none
  card_group_id : Option String := none
  entry_anki_id : Option String := none
  anki_card_id : Option String := none
  direction : Option String := none
  payload : Option Payload := none
  audio_filename : Option String := none
  created_at : Option Nat := none
  updated_at : Option Nat := none
  front_audio_path : Option MemberName := none
  back_audio_path : Option MemberName := none
deriving DecidableEq

/-- A parsed `manifest.json`. -/
structure Manifest where
  version : Option Int := none
  generated_at : Option Nat := none
  deck : Option ManifestDeck := none
  cards : Option (List ManifestCard) := none
deriving DecidableEq

/-- Content of a zip member: a manifest the JSON parser accepts, raw
bytes, or content `json.loads` rejects. -/
inductive MemberData : Type where
  | jsonManifest (m : Manifest)
  | blob (b : Bytes)
  | garbage
deriving DecidableEq

/-- The zip container. -/
structure Zip where
  members : List (MemberName × MemberData)
deriving DecidableEq

/-- `archive.read(name)`; `none` models `KeyError`. -/
def Zip.read (z : Zip) (n : MemberName) : Option MemberData :=
  (z.members.find? (fun p => decide (p.1 = n))).map (fun p => p.2)

/-- `backups._entry_anki_uuid`: first truthy of
`entry_anki_id / card_group_id / id`, parsed as a UUID; on failure a
name-based UUID of `"backup-entry-{seed}"` where the seed is the card's
`id` or a fresh `uuid.uuid4()`. -/
def entryAnkiUuid (entryAnkiId cardGroupId id : Option String) (ctr : Nat) :
    String × Nat :=
  let cand := pyOrStr entryAnkiId (pyOrStr cardGroupId id)
  if isUuidStr (cand.getD "None") then (cand.getD "None", ctr)
  else
    let seedCtr : String × Nat :=
      if truthyStr id then (id.getD "", ctr) else (mintUuid ctr, ctr + 1)
    (uuid5 NAMESPACE_URL ("backup-entry-" ++ seedCtr.1), seedCtr.2)

/-- `backups._sanitize_deck`. -/
def sanitizeDeck (deck : DeckRow) : ManifestDeck :=
  { id := some deck.id
    anki_id := deck.anki_id
    name := some deck.name
    target_language := some deck.target_language
    field_schema := some deck.field_schema
    prompt_templates := some deck.prompt_templates
    created_at := some deck.created_at
    updated_at := some deck.updated_at }

/-- The per-card body of `backups.create_backup_archive`'s loop: media
members written for this card, and its manifest entry. -/
def encodeCard (c : CardRow) (ctr : Nat) :
    (List (MemberName × MemberData)) × ManifestCard × Nat :=
  let eu := entryAnkiUuid c.entry_anki_id (some c.card_group_id) (some c.id) ctr
  let base : ManifestCard :=
    { id := some c.id
      card_group_id := some c.card_group_id
      entry_anki_id := some eu.1
      anki_card_id := some (stable_card_guid eu.1 c.direction)
      direction := some c.direction
      payload := some c.payload
      audio_filename := c.audio_filename
      created_at := c.created_at
      updated_at := c.updated_at
      front_audio_path := none
      back_audio_path := none }
  let stepF : (List (MemberName × MemberData)) × ManifestCard :=
    if truthyBytes c.front_audio then
      ([(MemberName.media c.id "front", MemberData.blob (c.front_audio.getD []))],
        { base with front_audio_path := some (MemberName.media c.id "front") })
    else ([], base)
  let stepB : (List (MemberName × MemberData)) × ManifestCard :=
    if truthyBytes c.back_audio then
      (stepF.1 ++
        [(MemberName.media c.id "back", MemberData.blob (c.back_audio.getD []))],
        { stepF.2 with back_audio_path := some (MemberName.media c.id "back") })
    else (stepF.1, stepF.2)
  (stepB.1, stepB.2, eu.2)

/-- Fold of `create_backup_archive`'s card loop. -/
def encodeGo : List CardRow → Nat →
    (List (MemberName × MemberData)) × (List ManifestCard) × Nat
  | [], ctr => ([], [], ctr)
  | c :: rest, ctr =>
    let e := encodeCard c ctr
    let r := encodeGo rest e.2.2
    (e.1 ++ r.1, e.2.1 :: r.2.1, r.2.2)

/-- `backups.create_backup_archive`: media members in card order, then the
manifest member (`BACKUP_VERSION = 2`; `generated_at` is the `now`
parameter). -/
def createBackupArchive (deck : DeckRow) (cards : List CardRow) (now ctr : Nat) :
    Zip × Nat :=
  let g := encodeGo cards ctr
  let m : Manifest :=
    { version := some 2
      generated_at := some now
      deck := some (sanitizeDeck deck)
      cards := some g.2.1 }
  (⟨g.1 ++ [(MemberName.manifestJson, MemberData.jsonManifest m)]⟩, g.2.2)

/-! ## Import (`backups.import_backup`) -/

/-- The structured conflict descriptor (`backups._conflict_payload`):
existing deck summary. -/
structure ExistingDeckSummary where
  id : String
  name : String
  updated_at : Option Nat
  anki_id : Option String
deriving DecidableEq

/-- Incoming deck summary inside the conflict descriptor. -/
structure IncomingDeckSummary where
  name : Option String
  anki_id : Option String
  updated_at : Option Nat
  entry_count : Nat
  card_count : Nat
deriving DecidableEq

/-- One selectable policy inside the conflict descriptor. -/
structure PolicyOption where
  policy : String
  label : String
  description : String
deriving DecidableEq

/-- `backups._conflict_payload`'s result. -/
structure ConflictPayload where
  code : String
  message : String
  existingDeck : ExistingDeckSummary
  incomingDeck : IncomingDeckSummary
  options : List PolicyOption
deriving DecidableEq

/-- `backups._conflict_payload`. -/
def conflictPayload (existing : DeckRow) (incoming : ManifestDeck)
    (deckAnkiId : Option String) (entryCount cardCount : Nat) :
    ConflictPayload :=
  { code := "DECK_IMPORT_CONFLICT"
    message :=
      "A deck with the same Anki ID already exists. Choose how to handle the import."
    existingDeck :=
      { id := existing.id
        name := existing.name
        updated_at := some existing.updated_at
        anki_id := existing.anki_id }
    incomingDeck :=
      { name := incoming.name
        anki_id := deckAnkiId
        updated_at := incoming.updated_at
        entry_count := entryCount
        card_count := cardCount }
    options :=
      [ { policy := "override"
          label := "Override existing deck"
          description := "Replace the entire deck with the imported backup." }
        , { policy := "prefer_newest"
            label := "Accept newest per entry"
            description :=
              "Keep whichever version of each entry has the latest update." }
        , { policy := "only_new"
            label := "Import new entries only"
            description := "Only add entries that do not exist yet." } ] }

/-- The exceptions `import_backup` can raise (each `ValueError` has its own
constructor; `jsonError` is the `json.JSONDecodeError` escaping
`json.loads`). -/
inductive ImportError : Type where
  | badPolicy
  | invalidBackup
  | jsonError
  | unsupportedVersion
  | missingDeckMetadata
  | invalidDeckAnkiId
  | conflict (payload : ConflictPayload)
deriving DecidableEq

/-- The spec's `MalformedArchive` family: a missing or unparseable
manifest member (§7 taxonomy). -/
def ImportError.isMalformedArchive : ImportError → Bool
  | ImportError.invalidBackup => true
  | ImportError.jsonError => true
  | _ => false

/-- Everything `import_backup` extracts from the archive before touching
storage. -/
structure DecodedBackup where
  deck_info : ManifestDeck
  name : String
  target_language : String
  field_schema : Option SchemaVal
  prompt_templates : Option PromptVal
  deck_anki_uuid : Option String
  cards_payload : List RestoreCard
  entry_ids : List String
deriving DecidableEq

/-- `archive.read(path)` for an audio member: `KeyError` → `None`. -/
def readAudio (z : Zip) (p : Option MemberName) : Option Bytes :=
  match p with
  | none => none
  | some path =>
    match z.read path with
    | some (MemberData.blob b) => some b
    | _ => none

/-- The card loop of `import_backup`: drop rows with a direction outside
{forward, backward}, fetch audio members, derive the entry identity, and
collect the entry-id set (as a first-seen-ordered deduplicated list). -/
def parseCardsGo (z : Zip) : List ManifestCard → List RestoreCard →
    List String → Nat → (List RestoreCard) × (List String) × Nat
  | [], accC, accE, ctr => (accC, accE, ctr)
  | c :: rest, accC, accE, ctr =>
    match c.direction with
    | none => parseCardsGo z rest accC accE ctr
    | some d =>
      if d = "forward" ∨ d = "backward" then
        let fa := readAudio z c.front_audio_path
        let ba := readAudio z c.back_audio_path
        let eu := entryAnkiUuid c.entry_anki_id c.card_group_id c.id ctr
        let accE' := if accE.contains eu.1 then accE else accE ++ [eu.1]
        let rc : RestoreCard :=
          { id := none
            card_group_id := c.card_group_id
            entry_anki_id := some eu.1
            direction := some d
            payload := some (c.payload.getD [])
            audio_filename := c.audio_filename
            created_at := c.created_at
            updated_at := c.updated_at
            front_audio := fa
            back_audio := ba }
        parseCardsGo z rest (accC ++ [rc]) accE' eu.2
      else parseCardsGo z rest accC accE ctr

/-- `manifest.get("version") or 1`: the falsy values `None` and `0`
default to `1`. -/
def effectiveVersion : Option Int → Int
  | none => 1
  | some v => if v = 0 then 1 else v

/-- The archive-parsing phase of `import_backup` (everything inside the
`with zipfile.ZipFile(...)` block): no storage access happens here. -/
def parseBackup (z : Zip) (ctr : Nat) :
    Except ImportError (DecodedBackup × Nat) :=
  match z.read MemberName.manifestJson with
  | none => Except.error ImportError.invalidBackup
  | some (MemberData.blob _) => Except.error ImportError.jsonError
  | some MemberData.garbage => Except.error ImportError.jsonError
  | some (MemberData.jsonManifest m) =>
    let version : Int := effectiveVersion m.version
    if version ≠ 1 ∧ version ≠ 2 then Except.error ImportError.unsupportedVersion
    else
      let deckInfo := m.deck.getD {}
      let cardsInfo := m.cards.getD []
      if ¬ truthyStr deckInfo.name ∨ ¬ truthyStr deckInfo.target_language then
        Except.error ImportError.missingDeckMetadata
      else
        let ankiRes : Except ImportError (Option String) :=
          match deckInfo.anki_id with
          | none => Except.ok none
          | some a =>
            if a.isEmpty then Except.ok none
            else if isUuidStr a then Except.ok (some a)
            else Except.error ImportError.invalidDeckAnkiId
        match ankiRes with
        | Except.error e => Except.error e
        | Except.ok ankiOpt =>
          let p := parseCardsGo z cardsInfo [] [] ctr
          Except.ok
            ({ deck_info := deckInfo
               name := deckInfo.name.getD ""
               target_language := deckInfo.target_language.getD ""
               field_schema := deckInfo.field_schema
               prompt_templates := deckInfo.prompt_templates
               deck_anki_uuid := ankiOpt
               cards_payload := p.1
               entry_ids := p.2.1 }, p.2.2)

/-- The accepted policy strings (`DeckImportPolicy`). -/
def policyStrings : List String := ["override", "prefer_newest", "only_new"]

/-- `backups.import_backup`.  Returns the raised exception or the result
deck, together with the database (unchanged on every pre-merge error
path).  `NOW()` is the `now` parameter. -/
def importBackup (owner : String) (z : Zip) (policy : Option String)
    (now : Nat) (db : Db) : (Except ImportError (Option DeckRow)) × Db :=
  let pol : Except ImportError (Option String) :=
    match policy with
    | none => Except.ok none
    | some s =>
      if s ∈ policyStrings then Except.ok (some s)
      else Except.error ImportError.badPolicy
  match pol with
  | Except.error e => (Except.error e, db)
  | Except.ok selected =>
    match parseBackup z db.ctr with
    | Except.error e => (Except.error e, db)
    | Except.ok (dec, ctr') =>
      let db₁ : Db := { db with ctr := ctr' }
      let existing : Option DeckRow :=
        match dec.deck_anki_uuid with
        | some u => getDeckByAnkiId db₁ owner u
        | none => none
      match existing with
      | some ex =>
        match selected with
        | none =>
          (Except.error (ImportError.conflict
            (conflictPayload ex dec.deck_info dec.deck_anki_uuid
              dec.entry_ids.length dec.cards_payload.length)), db₁)
        | some polStr =>
          let db₂ :=
            if polStr = "override" ∨ polStr = "prefer_newest" then
              applyBackupMetadata db₁ owner ex.id dec.name
                dec.target_language dec.field_schema dec.prompt_templates now
            else db₁
          let mode := if polStr = "override" then "replace" else polStr
          let r := restoreCardsWithPolicy owner ex.id dec.cards_payload mode db₂
          (Except.ok (getDeck r.2 ex.id owner), r.2)
      | none =>
        let cd := createDeck db₁ owner dec.name dec.target_language
          dec.field_schema dec.prompt_templates dec.deck_anki_uuid now
        let r := restoreCardsWithPolicy owner cd.1.id dec.cards_payload
          "replace" cd.2
        (Except.ok (some cd.1), r.2)

/-! ## Card-group upsert (`cards.update_card_group`) and the `.apkg`
exporter's audio-side normalization (`exporter.export_deck`). -/

/-- One direction step of `update_card_group`'s upsert loop.  An existing
row gets `payload` overwritten and `updated_at` set; when `audio_bytes is
not None` the `SET` additionally writes `front_audio = NULL`,
`back_audio = audio_bytes`, `audio_filename = filename`.  A missing
direction is inserted fresh (back audio only, nulled when the bytes are
falsy). -/
def updateCardGroupStep (owner groupId deckId entryU : String)
    (payload : Payload) (audioBytes : Option Bytes)
    (audioFilename : Option String) (now : Nat)
    (existing : DirMap CardRow) (d : String) (db : Db) : Db :=
  match existing.get d with
  | some row =>
    { db with cards := db.cards.map (fun r =>
        if r.id = row.id then
          (match audioBytes with
            | some b =>
              { r with
                payload := payload
                front_audio := none
                back_audio := some b
                audio_filename := audioFilename
                updated_at := some now }
            | none => { r with payload := payload, updated_at := some now })
        else r) }
  | none =>
    let cid := mintUuid db.ctr
    let newRow : CardRow :=
      { id := cid
        card_group_id := groupId
        entry_anki_id := some entryU
        deck_id := deckId
        owner_id := owner
        direction := d
        payload := payload
        front_audio := none
        back_audio := if truthyBytes audioBytes then audioBytes else none
        audio_filename := if truthyBytes audioBytes then audioFilename else none
        created_at := some now
        updated_at := some now }
    { db with cards := db.cards ++ [newRow], ctr := db.ctr + 1 }

/-- `cards.update_card_group`: upsert the selected directions of a card
group, then delete the no-longer-selected directions.  `NOW()` is `now`;
the `ValueError` for an empty direction list is the `error` case. -/
def updateCardGroup (owner groupId : String) (deck : DeckRow)
    (payload : Payload) (directions : List String)
    (audioBytes : Option Bytes) (now : Nat) (db : Db) :
    Except String (Bool × Db) :=
  let valid := directions.filter (fun d => decide (d = "forward" ∨ d = "backward"))
  if valid.isEmpty then Except.error "Select at least one direction to keep."
  else
    match db.cards.filter (fun r =>
        decide (r.owner_id = owner ∧ r.card_group_id = groupId)) with
    | [] => Except.ok (false, db)
    | r₀ :: rest =>
      let rows := r₀ :: rest
      let existing : DirMap CardRow :=
        rows.foldl (fun m r => m.set r.direction r) ⟨none, none⟩
      let entryCtr : String × Nat :=
        if truthyStr r₀.entry_anki_id then (r₀.entry_anki_id.getD "", db.ctr)
        else (mintUuid db.ctr, db.ctr + 1)
      let fileCtr : Option String × Nat :=
        if truthyBytes audioBytes then
          (some (mintUuid entryCtr.2 ++ ".mp3"), entryCtr.2 + 1)
        else (none, entryCtr.2)
      let db₀ : Db := { db with ctr := fileCtr.2 }
      let db₁ := valid.foldl (fun acc d =>
        updateCardGroupStep owner groupId deck.id entryCtr.1 payload
          audioBytes fileCtr.1 now existing d acc) db₀
      let deadIds : List String :=
        (match existing.forward with
          | some r => if valid.contains "forward" then [] else [r.id]
          | none => []) ++
        (match existing.backward with
          | some r => if valid.contains "backward" then [] else [r.id]
          | none => [])
      let db₂ : Db :=
        { db₁ with cards := db₁.cards.filter (fun r =>
            decide (¬ r.id ∈ deadIds)) }
      Except.ok (true, db₂)

/-- The audio-side normalization in `exporter.export_deck` (`.apkg`
export): a forward card with audio only on the back side has it moved to
the front face before rendering. -/
def exportAudioSides (direction : String) (front back : Option Bytes) :
    Option Bytes × Option Bytes :=
  if direction = "forward" ∧ ¬ truthyBytes front ∧ truthyBytes back then
    (back, none)
  else (front, back)

/-! ## Basic facts about the model -/

theorem isUuidStr_not_empty {s : String} (h : isUuidStr s = true) :
    ¬ s.isEmpty := by
  simp only [isUuidStr, decide_eq_true_eq] at h
  intro he
  rw [String.isEmpty_iff] at he
  subst he
  simp [String.data] at h

/-- An optional audio value is well formed when Python truthiness agrees
with presence: it is `None` or a non-empty byte string (the engine itself
never stores `b""`). -/
def audioWF (a : Option Bytes) : Prop := truthyBytes a = a.isSome

theorem audioWF_norm {a : Option Bytes} (h : audioWF a) :
    (if truthyBytes a then a else none) = a := by
  unfold audioWF at h
  cases a with
  | none => simp
  | some b => simp [h]

/-! ## C9: `stable_card_guid` -/

/-- C9 counterexample: `stable_card_guid` performs no direction
validation.  For the direction `"sideways"` — not in
{forward, backward} — the call returns the ordinary content hash instead
of rejecting, while the specified `card_guid` rejects it. -/
theorem C9_counterexample :
    stable_card_guid_call "uuid:entry1" "sideways" =
      Except.ok (uuid5 CARD_GUID_NAMESPACE ("uuid:entry1" ++ ":" ++ "sideways")) ∧
    card_guid_specified "uuid:entry1" "sideways" =
      Except.error "invalid direction" ∧
    ¬ ("sideways" = "forward" ∨ "sideways" = "backward") := by
  refine ⟨rfl, ?_, by decide⟩
  rw [card_guid_specified, if_neg (by decide)]

/-- C9 amended: `card_guid` is a pure deterministic function of
`(entry_identity, direction)` computed by hashing the fixed namespace with
the seed `"{entry_identity}:{direction}"`; it has no failure mode at all —
every call, with any direction string, returns the content hash; direction
filtering happens in the callers, never here. -/
theorem C9_amended (entry_anki_id direction : String) :
    stable_card_guid_call entry_anki_id direction =
      Except.ok (stable_card_guid entry_anki_id direction) ∧
    stable_card_guid entry_anki_id direction =
      uuid5 CARD_GUID_NAMESPACE (entry_anki_id ++ ":" ++ direction) :=
  ⟨rfl, rfl⟩

/-! ## C5: restore row identifiers -/

/-- C5 counterexample: inserting the very same entry identity and
direction twice yields two distinct row identifiers — the row id is a
fresh `uuid.uuid4()`, not a deterministic function of
`(entry identity, direction)`. -/
theorem C5_counterexample :
    (insertEntryCard "o" "d" "uuid:g" "uuid:e" "forward"
        { payload := [], created_at := none, updated_at := some 1,
          front_audio := none, back_audio := none, audio_filename := none }
        { decks := [], cards := [], ctr := 0 }).1 ≠
    (insertEntryCard "o" "d" "uuid:g" "uuid:e" "forward"
        { payload := [], created_at := none, updated_at := some 1,
          front_audio := none, back_audio := none, audio_filename := none }
        (insertEntryCard "o" "d" "uuid:g" "uuid:e" "forward"
          { payload := [], created_at := none, updated_at := some 1,
            front_audio := none, back_audio := none, audio_filename := none }
          { decks := [], cards := [], ctr := 0 }).2).1 := by
  decide

/-- C5 amended: every restore insert mints its database row identifier
from the fresh-UUID supply — the id equals `uuid4` at the current counter,
for every entry identity, direction and card alike, so it is independent
of `(entry_identity, direction)` and differs between two inserts.
Re-import idempotence comes from the merge logic, not from deterministic
row ids; the deterministic content-addressed identifier of
`(entry_identity, direction)` is the Anki-facing `stable_card_guid`
recorded in archives. -/
theorem C5_amended (owner deck group entryU direction : String)
    (c : NormCard) (db : Db) :
    (insertEntryCard owner deck group entryU direction c db).1 =
      mintUuid db.ctr ∧
    (insertEntryCard owner deck group entryU direction c db).2.ctr =
      db.ctr + 1 :=
  ⟨rfl, rfl⟩

/-! ## C6: audio re-pointing is in the `.apkg` exporter, not the archive
encoder -/

/-- The card entries of an archive's manifest. -/
def archiveManifestCards (z : Zip) : List ManifestCard :=
  match z.read MemberName.manifestJson with
  | some (MemberData.jsonManifest m) => m.cards.getD []
  | _ => []

/-- A forward card carrying audio only on the back side, used to test the
encoder. -/
def backOnlyCard : CardRow :=
  { id := "uuid:c6"
    card_group_id := "uuid:g6"
    entry_anki_id := some "uuid:e6"
    deck_id := "uuid:d6"
    owner_id := "uuid:o6"
    direction := "forward"
    payload := [("foreign_phrase", "hund")]
    front_audio := none
    back_audio := some [2, 3]
    audio_filename := some "a.mp3"
    created_at := some 5
    updated_at := some 6 }

/-- A deck row for the encoder tests. -/
def deckD6 : DeckRow :=
  { id := "uuid:d6"
    owner_id := "uuid:o6"
    anki_id := some "uuid:a6"
    name := "D"
    target_language := "T"
    field_schema := SchemaVal.token 0
    prompt_templates := PromptVal.token 0
    created_at := 1
    updated_at := 1 }

/-- C6 counterexample: `create_backup_archive` does **not** re-point
back-only audio of a forward card.  The produced archive's manifest entry
records the audio under `back_audio_path` with the bytes in the back
media member; `front_audio_path` stays null and no front member exists. -/
theorem C6_counterexample :
    backOnlyCard.direction = "forward" ∧
    backOnlyCard.front_audio = none ∧
    backOnlyCard.back_audio = some [2, 3] ∧
    (archiveManifestCards (createBackupArchive deckD6 [backOnlyCard] 9 0).1).map
        (fun e => (e.front_audio_path, e.back_audio_path)) =
      [(none, some (MemberName.media "uuid:c6" "back"))] ∧
    (createBackupArchive deckD6 [backOnlyCard] 9 0).1.read
        (MemberName.media "uuid:c6" "back") = some (MemberData.blob [2, 3]) ∧
    (createBackupArchive deckD6 [backOnlyCard] 9 0).1.read
        (MemberName.media "uuid:c6" "front") = none := by
  refine ⟨rfl, rfl, rfl, ?_, ?_, ?_⟩ <;> decide

/-- C6 amended: the back-to-front audio normalization for forward cards is
performed by the `.apkg` exporter (`exporter.export_deck`), not by the
archive encoder: for every forward card whose audio is present only on
the back side, `create_backup_archive` records the audio under
`back_audio_path` (the back media member) and leaves `front_audio_path`
null, while `export_deck` moves those bytes to the front face before
rendering. -/
theorem C6_amended (c : CardRow) (ctr : Nat)
    (hdir : c.direction = "forward")
    (hfront : truthyBytes c.front_audio = false)
    (hback : truthyBytes c.back_audio = true) :
    (encodeCard c ctr).2.1.front_audio_path = none ∧
    (encodeCard c ctr).2.1.back_audio_path =
      some (MemberName.media c.id "back") ∧
    exportAudioSides c.direction c.front_audio c.back_audio =
      (c.back_audio, none) := by
  refine ⟨?_, ?_, ?_⟩
  · simp only [encodeCard, hfront, if_false, Bool.false_eq_true, hback, if_true]
  · simp only [encodeCard, hfront, if_false, Bool.false_eq_true, hback, if_true]
  · rw [exportAudioSides, if_pos ⟨hdir, by simp [hfront], by simp [hback]⟩]

/-- C6 amended, witnessed at the concrete back-only forward card. -/
theorem C6_amended_witness :
    (encodeCard backOnlyCard 0).2.1.front_audio_path = none ∧
    (encodeCard backOnlyCard 0).2.1.back_audio_path =
      some (MemberName.media backOnlyCard.id "back") ∧
    exportAudioSides backOnlyCard.direction backOnlyCard.front_audio
      backOnlyCard.back_audio = (backOnlyCard.back_audio, none) :=
  C6_amended backOnlyCard 0 rfl rfl rfl

/-! ## C7: audio handling in `update_card_group` -/

/-- An existing forward card that already carries front audio. -/
def rowC7 : CardRow :=
  { id := "uuid:c7"
    card_group_id := "uuid:grp1"
    entry_anki_id := some "uuid:entry1"
    deck_id := "uuid:deck1"
    owner_id := "uuid:owner1"
    direction := "forward"
    payload := [("foreign_phrase", "hund")]
    front_audio := some [7]
    back_audio := none
    audio_filename := some "a.mp3"
    created_at := some 5
    updated_at := some 6 }

/-- The deck owning `rowC7`. -/
def deckC7 : DeckRow :=
  { id := "uuid:deck1"
    owner_id := "uuid:owner1"
    anki_id := some "uuid:anki1"
    name := "Danish Basics"
    target_language := "Danish"
    field_schema := SchemaVal.token 1
    prompt_templates := PromptVal.token 2
    created_at := 1
    updated_at := 2 }

/-- C7 counterexample: upserting an existing row with **non-null** audio
does not leave the null-incoming front column alone — it actively clears
the stored front audio (`SET front_audio = NULL`), so a row that had
front audio `[7]` ends with `front_audio = NULL` (not `COALESCE`
semantics), while `back_audio` takes the new bytes. -/
theorem C7_counterexample :
    rowC7.front_audio = some [7] ∧
    updateCardGroup "uuid:owner1" "uuid:grp1" deckC7 [("p", "q")]
        ["forward"] (some [9]) 50 { decks := [deckC7], cards := [rowC7], ctr := 0 } =
      Except.ok (true,
        { decks := [deckC7]
          cards := [{ rowC7 with
            payload := [("p", "q")]
            front_audio := none
            back_audio := some [9]
            audio_filename := some (mintUuid 0 ++ ".mp3")
            updated_at := some 50 }]
          ctr := 1 }) := by
  constructor
  · rfl
  · decide

/-- C7 amended: upserting an existing direction overwrites the payload
unconditionally and sets `updated_at`; with `audio_bytes = None` both
stored audio columns and the stored filename are left unchanged; with
`audio_bytes` non-null the stored back audio is replaced by the new bytes
and the stored front audio is cleared (whole-audio replacement onto the
back column — not per-column `COALESCE`).  Rows with any other id are
untouched. -/
theorem C7_amended (owner groupId deckId entryU : String) (payload : Payload)
    (ab : Option Bytes) (fn : Option String) (now : Nat)
    (existing : DirMap CardRow) (d : String) (db : Db) (row : CardRow)
    (hex : existing.get d = some row) :
    (∀ r ∈ db.cards, r.id = row.id →
      ∃ r' ∈ (updateCardGroupStep owner groupId deckId entryU payload ab fn
          now existing d db).cards,
        r'.id = r.id ∧ r'.payload = payload ∧ r'.updated_at = some now ∧
        r'.direction = r.direction ∧ r'.created_at = r.created_at ∧
        ((ab = none ∧ r'.front_audio = r.front_audio ∧
            r'.back_audio = r.back_audio ∧
            r'.audio_filename = r.audio_filename) ∨
          (∃ b, ab = some b ∧ r'.front_audio = none ∧
            r'.back_audio = some b ∧ r'.audio_filename = fn))) ∧
    (∀ s ∈ db.cards, s.id ≠ row.id →
      s ∈ (updateCardGroupStep owner groupId deckId entryU payload ab fn
          now existing d db).cards) := by
  simp only [updateCardGroupStep, hex]
  constructor
  · intro r hr hrid
    refine ⟨_, List.mem_map_of_mem _ hr, ?_⟩
    rw [if_pos hrid]
    cases ab with
    | none => exact ⟨rfl, rfl, rfl, rfl, rfl, Or.inl ⟨rfl, rfl, rfl, rfl⟩⟩
    | some b => exact ⟨rfl, rfl, rfl, rfl, rfl, Or.inr ⟨b, rfl, rfl, rfl, rfl⟩⟩
  · intro s hs hsid
    have : (if s.id = row.id then
        (match ab with
          | some b =>
            { s with
              payload := payload
              front_audio := none
              back_audio := some b
              audio_filename := fn
              updated_at := some now }
          | none => { s with payload := payload, updated_at := some now })
      else s) = s := if_neg hsid
    rw [← this]
    exact List.mem_map_of_mem _ hs

/-- C7 amended, witnessed at a concrete one-row database. -/
theorem C7_amended_witness :
    (∀ r ∈ ({ decks := [deckC7], cards := [rowC7], ctr := 0 } : Db).cards,
      r.id = rowC7.id →
      ∃ r' ∈ (updateCardGroupStep "uuid:owner1" "uuid:grp1" "uuid:deck1"
          "uuid:entry1" [("p", "q")] (some [9]) (some "f.mp3") 50
          ⟨some rowC7, none⟩ "forward"
          { decks := [deckC7], cards := [rowC7], ctr := 0 }).cards,
        r'.id = r.id ∧ r'.payload = [("p", "q")] ∧ r'.updated_at = some 50 ∧
        r'.direction = r.direction ∧ r'.created_at = r.created_at ∧
        (((some [9] : Option Bytes) = none ∧ r'.front_audio = r.front_audio ∧
            r'.back_audio = r.back_audio ∧
            r'.audio_filename = r.audio_filename) ∨
          (∃ b, (some [9] : Option Bytes) = some b ∧ r'.front_audio = none ∧
            r'.back_audio = some b ∧ r'.audio_filename = some "f.mp3"))) ∧
    (∀ s ∈ ({ decks := [deckC7], cards := [rowC7], ctr := 0 } : Db).cards,
      s.id ≠ rowC7.id →
      s ∈ (updateCardGroupStep "uuid:owner1" "uuid:grp1" "uuid:deck1"
          "uuid:entry1" [("p", "q")] (some [9]) (some "f.mp3") 50
          ⟨some rowC7, none⟩ "forward"
          { decks := [deckC7], cards := [rowC7], ctr := 0 }).cards) :=
  C7_amended "uuid:owner1" "uuid:grp1" "uuid:deck1" "uuid:entry1"
    [("p", "q")] (some [9]) (some "f.mp3") 50 ⟨some rowC7, none⟩ "forward"
    { decks := [deckC7], cards := [rowC7], ctr := 0 } rowC7 rfl

/-! ## C8: archive decode failures -/

/-- An archive whose manifest declares `version: 0`. -/
def zipVersion0 : Zip :=
  ⟨[(MemberName.manifestJson, MemberData.jsonManifest
      { version := some 0
        deck := some { name := some "N", target_language := some "T" }
        cards := some [] })]⟩

/-- C8 counterexample: a manifest version of `0` lies outside the
supported set {1, 2}, yet decoding does **not** fail — the code computes
`manifest.get("version") or 1`, so the falsy `0` silently becomes `1` and
the archive is accepted. -/
theorem C8_counterexample :
    ((0 : Int) = 1 ∨ (0 : Int) = 2) = False ∧
    (match zipVersion0.read MemberName.manifestJson with
      | some (MemberData.jsonManifest m) => m.version
      | _ => none) = some 0 ∧
    parseBackup zipVersion0 0 =
      Except.ok
        ({ deck_info := { name := some "N", target_language := some "T" }
           name := "N"
           target_language := "T"
           field_schema := none
           prompt_templates := none
           deck_anki_uuid := none
           cards_payload := []
           entry_ids := [] }, 0) := by
  refine ⟨by simp, by decide, by decide⟩

/-- C8 amended: decoding fails with the malformed-archive errors when the
manifest member is absent (`Invalid backup file.`) or its content is not
valid structured data (the JSON decode error), and fails with
`Unsupported backup version.` when the manifest's version — after the
code's falsy-default (absent or `0` becomes `1`) — is outside {1, 2}; in
every such case `import_backup` raises before any storage read or write,
leaving the database exactly as it was. -/
theorem C8_amended (z : Zip) (owner : String) (now : Nat) (db : Db) :
    (z.read MemberName.manifestJson = none →
      importBackup owner z none now db =
        (Except.error ImportError.invalidBackup, db) ∧
      ImportError.isMalformedArchive ImportError.invalidBackup = true) ∧
    (∀ b, z.read MemberName.manifestJson = some (MemberData.blob b) →
      importBackup owner z none now db =
        (Except.error ImportError.jsonError, db)) ∧
    (z.read MemberName.manifestJson = some MemberData.garbage →
      importBackup owner z none now db =
        (Except.error ImportError.jsonError, db) ∧
      ImportError.isMalformedArchive ImportError.jsonError = true) ∧
    (∀ m v, z.read MemberName.manifestJson =
        some (MemberData.jsonManifest m) →
      m.version = some v → v ≠ 0 → v ≠ 1 → v ≠ 2 →
      importBackup owner z none now db =
        (Except.error ImportError.unsupportedVersion, db)) := by
  refine ⟨?_, ?_, ?_, ?_⟩
  · intro h
    refine ⟨?_, rfl⟩
    simp only [importBackup, parseBackup, h]
  · intro b h
    simp only [importBackup, parseBackup, h]
  · intro h
    refine ⟨?_, rfl⟩
    simp only [importBackup, parseBackup, h]
  · intro m v h hv h0 h1 h2
    simp only [importBackup, parseBackup, h, hv, effectiveVersion]
    rw [if_neg h0, if_pos ⟨h1, h2⟩]

/-- C8 amended, witnessed: the empty archive (missing manifest), a
garbage manifest, and a version-3 manifest all fail with the respective
error and leave a concrete database untouched. -/
theorem C8_amended_witness :
    (importBackup "uuid:o" (⟨[]⟩ : Zip) none 5
        { decks := [], cards := [], ctr := 0 } =
      (Except.error ImportError.invalidBackup,
        { decks := [], cards := [], ctr := 0 }) ∧
      ImportError.isMalformedArchive ImportError.invalidBackup = true) ∧
    (importBackup "uuid:o"
        (⟨[(MemberName.manifestJson, MemberData.garbage)]⟩ : Zip) none 5
        { decks := [], cards := [], ctr := 0 } =
      (Except.error ImportError.jsonError,
        { decks := [], cards := [], ctr := 0 }) ∧
      ImportError.isMalformedArchive ImportError.jsonError = true) ∧
    importBackup "uuid:o"
        (⟨[(MemberName.manifestJson, MemberData.jsonManifest
            { version := some 3 })]⟩ : Zip) none 5
        { decks := [], cards := [], ctr := 0 } =
      (Except.error ImportError.unsupportedVersion,
        { decks := [], cards := [], ctr := 0 }) := by
  refine ⟨?_, ?_, ?_⟩
  · exact (C8_amended ⟨[]⟩ "uuid:o" 5 { decks := [], cards := [], ctr := 0 }).1 rfl
  · exact (C8_amended ⟨[(MemberName.manifestJson, MemberData.garbage)]⟩
      "uuid:o" 5 { decks := [], cards := [], ctr := 0 }).2.2.1 rfl
  · exact (C8_amended ⟨[(MemberName.manifestJson, MemberData.jsonManifest
      { version := some 3 })]⟩ "uuid:o" 5
      { decks := [], cards := [], ctr := 0 }).2.2.2
      { version := some 3 } 3 rfl rfl (by decide) (by decide) (by decide)

/-! ## C1: conflict gating -/

/-- C1: when the archive decodes successfully, carries a deck identity
that matches an existing deck of the importing owner, and no policy is
supplied, `import_backup` raises `DeckImportConflict` carrying the
structured descriptor — existing summary, incoming summary with the
declared entry/card counts, and exactly the three policy options — and
the card and deck tables are left completely untouched. -/
theorem C1_conflict_gating (z : Zip) (owner : String) (now : Nat) (db : Db)
    (dec : DecodedBackup) (ctr' : Nat) (u : String) (ex : DeckRow)
    (hparse : parseBackup z db.ctr = Except.ok (dec, ctr'))
    (hu : dec.deck_anki_uuid = some u)
    (hex : getDeckByAnkiId db owner u = some ex) :
    importBackup owner z none now db =
      (Except.error (ImportError.conflict
        (conflictPayload ex dec.deck_info (some u) dec.entry_ids.length
          dec.cards_payload.length)), { db with ctr := ctr' }) ∧
    ({ db with ctr := ctr' } : Db).cards = db.cards ∧
    ({ db with ctr := ctr' } : Db).decks = db.decks ∧
    (conflictPayload ex dec.deck_info (some u) dec.entry_ids.length
        dec.cards_payload.length).options.map (fun o => o.policy) =
      ["override", "prefer_newest", "only_new"] ∧
    (conflictPayload ex dec.deck_info (some u) dec.entry_ids.length
        dec.cards_payload.length).existingDeck =
      ⟨ex.id, ex.name, some ex.updated_at, ex.anki_id⟩ ∧
    (conflictPayload ex dec.deck_info (some u) dec.entry_ids.length
        dec.cards_payload.length).incomingDeck =
      ⟨dec.deck_info.name, some u, dec.deck_info.updated_at,
        dec.entry_ids.length, dec.cards_payload.length⟩ := by
  have hex' : getDeckByAnkiId { db with ctr := ctr' } owner u = some ex := hex
  refine ⟨?_, rfl, rfl, rfl, rfl, rfl⟩
  simp only [importBackup, hparse, hu, hex']

/-- The incoming manifest deck used by the C1 witness. -/
def manifestDeckW : ManifestDeck :=
  { name := some "N", target_language := some "T", anki_id := some "uuid:a1" }

/-- The archive used by the C1 witness. -/
def zipW : Zip :=
  ⟨[(MemberName.manifestJson, MemberData.jsonManifest
      { version := some 2, deck := some manifestDeckW, cards := some [] })]⟩

/-- The existing stored deck row matching the C1 witness archive. -/
def deckW : DeckRow :=
  { id := "uuid:deckW"
    owner_id := "uuid:o"
    anki_id := some "uuid:a1"
    name := "Old"
    target_language := "T"
    field_schema := SchemaVal.token 1
    prompt_templates := PromptVal.token 2
    created_at := 1
    updated_at := 2 }

/-- What `import_backup`'s decode extracts from `zipW`. -/
def decW : DecodedBackup :=
  { deck_info := manifestDeckW
    name := "N"
    target_language := "T"
    field_schema := none
    prompt_templates := none
    deck_anki_uuid := some "uuid:a1"
    cards_payload := []
    entry_ids := [] }

/-- C1 witnessed at a concrete archive and a one-deck database. -/
theorem C1_conflict_gating_witness :
    importBackup "uuid:o" zipW none 7
        { decks := [deckW], cards := [], ctr := 0 } =
      (Except.error (ImportError.conflict
        (conflictPayload
          { deckW with field_schema := SchemaVal.normalized deckW.field_schema }
          decW.deck_info (some "uuid:a1") decW.entry_ids.length
          decW.cards_payload.length)),
        { decks := [deckW], cards := [], ctr := 0 }) ∧
    ({ decks := [deckW], cards := [], ctr := 0 } : Db).cards =
      ({ decks := [deckW], cards := [], ctr := 0 } : Db).cards ∧
    ({ decks := [deckW], cards := [], ctr := 0 } : Db).decks =
      ({ decks := [deckW], cards := [], ctr := 0 } : Db).decks ∧
    (conflictPayload
        { deckW with field_schema := SchemaVal.normalized deckW.field_schema }
        decW.deck_info (some "uuid:a1") decW.entry_ids.length
        decW.cards_payload.length).options.map (fun o => o.policy) =
      ["override", "prefer_newest", "only_new"] ∧
    (conflictPayload
        { deckW with field_schema := SchemaVal.normalized deckW.field_schema }
        decW.deck_info (some "uuid:a1") decW.entry_ids.length
        decW.cards_payload.length).existingDeck =
      ⟨deckW.id, deckW.name, some deckW.updated_at, deckW.anki_id⟩ ∧
    (conflictPayload
        { deckW with field_schema := SchemaVal.normalized deckW.field_schema }
        decW.deck_info (some "uuid:a1") decW.entry_ids.length
        decW.cards_payload.length).incomingDeck =
      ⟨decW.deck_info.name, some "uuid:a1", decW.deck_info.updated_at,
        decW.entry_ids.length, decW.cards_payload.length⟩ :=
  C1_conflict_gating zipW "uuid:o" 7
    { decks := [deckW], cards := [], ctr := 0 } decW 0 "uuid:a1"
    { deckW with field_schema := SchemaVal.normalized deckW.field_schema }
    (by decide) rfl (by decide)

/-! ## Support lemmas: the restore engine never touches the `decks` table,
and `only_new` only appends card rows. -/

theorem insertEntryCard_decks (owner deck group entryU direction : String)
    (c : NormCard) (db : Db) :
    (insertEntryCard owner deck group entryU direction c db).2.decks =
      db.decks := rfl

theorem insertEntryCards_decks (owner deck group entryU : String)
    (m : DirMap NormCard) (db : Db) :
    (insertEntryCards owner deck group entryU m db).2.2.decks = db.decks := by
  unfold insertEntryCards
  cases m.forward <;> cases m.backward <;> rfl

theorem mergeStep_decks (owner deck entryU d : String)
    (copt : Option NormCard) (st : Nat × ExistEntry × Db) :
    (mergeStep owner deck entryU d copt st).2.2.decks = st.2.2.decks := by
  obtain ⟨n, ex, db⟩ := st
  cases copt with
  | none => rfl
  | some c =>
    cases hx : ex.cards.get d with
    | none =>
      simp only [mergeStep, hx]
      rfl
    | some x =>
      simp only [mergeStep, hx]
      by_cases hc : condReplace c.updated_at x.updated_at = true
      · rw [if_pos hc]
        rfl
      · rw [if_neg hc]

theorem mergeEntry_decks (owner deck entryU : String) (ex : ExistEntry)
    (inc : DirMap NormCard) (db : Db) :
    (mergeEntry owner deck entryU ex inc db).2.2.decks = db.decks := by
  unfold mergeEntry
  rw [mergeStep_decks, mergeStep_decks]

theorem applyEntryRestore_decks (owner deck mode : String)
    (st : Nat × List (String × ExistEntry) × Db)
    (entry : String × DirMap NormCard) :
    (applyEntryRestore owner deck mode st entry).2.2.decks = st.2.2.decks := by
  obtain ⟨n, map, db⟩ := st
  have hsafe : (safeUuidOf entry.1 db).2.decks = db.decks := by
    unfold safeUuidOf
    split <;> rfl
  simp only [applyEntryRestore]
  cases hl : lookupA map (safeUuidOf entry.1 db).1 with
  | some ex =>
    simp only [hl]
    by_cases h1 : mode = "only_new"
    · rw [if_pos h1]
      exact hsafe
    · rw [if_neg h1]
      by_cases h2 : mode = "prefer_newest"
      · rw [if_pos h2]
        exact (mergeEntry_decks _ _ _ _ _ _).trans hsafe
      · rw [if_neg h2]
        refine (insertEntryCards_decks _ _ _ _ _ _).trans ?_
        refine Eq.trans ?_ hsafe
        split <;> rfl
  | none =>
    simp only [hl]
    exact (insertEntryCards_decks _ _ _ _ _ _).trans hsafe

theorem restoreFold_decks (owner deck mode : String) :
    ∀ (E : List (String × DirMap NormCard))
      (st : Nat × List (String × ExistEntry) × Db),
    ((E.foldl (applyEntryRestore owner deck mode) st).2.2).decks =
      st.2.2.decks := by
  intro E
  induction E with
  | nil => intro st; rfl
  | cons e rest ih =>
    intro st
    rw [List.foldl_cons, ih, applyEntryRestore_decks]

theorem restore_decks (owner deck : String) (cards : List RestoreCard)
    (mode : String) (db : Db) :
    (restoreCardsWithPolicy owner deck cards mode db).2.decks = db.decks := by
  unfold restoreCardsWithPolicy
  rw [restoreFold_decks]
  split <;> rfl

theorem insertEntryCards_append (owner deck group entryU : String)
    (m : DirMap NormCard) (db : Db) :
    ∃ new, (insertEntryCards owner deck group entryU m db).2.2.cards =
      db.cards ++ new := by
  have h1 : ∀ (dir : String) (c : NormCard) (d : Db),
      ∃ row, (insertEntryCard owner deck group entryU dir c d).2.cards =
        d.cards ++ [row] := fun dir c d => ⟨_, rfl⟩
  simp only [insertEntryCards]
  cases m.forward with
  | none =>
    cases m.backward with
    | none => exact ⟨[], (List.append_nil _).symm⟩
    | some c =>
      obtain ⟨row, hrow⟩ := h1 "backward" c db
      exact ⟨[row], hrow⟩
  | some c =>
    cases m.backward with
    | none =>
      obtain ⟨row, hrow⟩ := h1 "forward" c db
      exact ⟨[row], hrow⟩
    | some c2 =>
      obtain ⟨r1, hr1⟩ := h1 "forward" c db
      obtain ⟨r2, hr2⟩ := h1 "backward" c2
        (insertEntryCard owner deck group entryU "forward" c db).2
      refine ⟨[r1] ++ [r2], ?_⟩
      rw [hr2, hr1, List.append_assoc]

theorem applyEntryRestore_only_new_append (owner deck : String)
    (st : Nat × List (String × ExistEntry) × Db)
    (entry : String × DirMap NormCard) :
    ∃ new, (applyEntryRestore owner deck "only_new" st entry).2.2.cards =
      st.2.2.cards ++ new := by
  obtain ⟨n, map, db⟩ := st
  have hsafe : (safeUuidOf entry.1 db).2.cards = db.cards := by
    unfold safeUuidOf
    split <;> rfl
  simp only [applyEntryRestore]
  cases hl : lookupA map (safeUuidOf entry.1 db).1 with
  | some ex =>
    simp only [hl]
    rw [if_pos trivial]
    exact ⟨[], by rw [List.append_nil]; exact hsafe⟩
  | none =>
    simp only [hl]
    obtain ⟨new, hnew⟩ := insertEntryCards_append owner deck
      (mintUuid (safeUuidOf entry.1 db).2.ctr) (safeUuidOf entry.1 db).1
      entry.2 { (safeUuidOf entry.1 db).2 with ctr := (safeUuidOf entry.1 db).2.ctr + 1 }
    exact ⟨new, by rw [hnew]; rw [show ({ (safeUuidOf entry.1 db).2 with
      ctr := (safeUuidOf entry.1 db).2.ctr + 1 } : Db).cards =
        (safeUuidOf entry.1 db).2.cards from rfl, hsafe]⟩

theorem restoreFold_only_new_append (owner deck : String) :
    ∀ (E : List (String × DirMap NormCard))
      (st : Nat × List (String × ExistEntry) × Db),
    ∃ new, ((E.foldl (applyEntryRestore owner deck "only_new") st).2.2).cards =
      st.2.2.cards ++ new := by
  intro E
  induction E with
  | nil => exact fun st => ⟨[], (List.append_nil _).symm⟩
  | cons e rest ih =>
    intro st
    rw [List.foldl_cons]
    obtain ⟨n₁, h₁⟩ := applyEntryRestore_only_new_append owner deck st e
    obtain ⟨n₂, h₂⟩ := ih (applyEntryRestore owner deck "only_new" st e)
    exact ⟨n₁ ++ n₂, by rw [h₂, h₁, List.append_assoc]⟩

theorem restore_only_new_append (owner deck : String)
    (cards : List RestoreCard) (db : Db) :
    ∃ new, (restoreCardsWithPolicy owner deck cards "only_new" db).2.cards =
      db.cards ++ new := by
  simp only [restoreCardsWithPolicy]
  exact restoreFold_only_new_append owner deck _ _

/-- Reduction of `import_backup` on the existing-deck path with a chosen
policy: metadata is applied for `override` / `prefer_newest` only, then
the card restore runs with the mapped mode. -/
theorem importBackup_policy_reduce (z : Zip) (owner : String) (now : Nat)
    (db : Db) (dec : DecodedBackup) (ctr' : Nat) (u : String) (ex : DeckRow)
    (p : String) (hp : p ∈ policyStrings)
    (hparse : parseBackup z db.ctr = Except.ok (dec, ctr'))
    (hu : dec.deck_anki_uuid = some u)
    (hex : getDeckByAnkiId db owner u = some ex) :
    importBackup owner z (some p) now db =
      ((Except.ok (getDeck (restoreCardsWithPolicy owner ex.id
          dec.cards_payload (if p = "override" then "replace" else p)
          (if p = "override" ∨ p = "prefer_newest" then
            applyBackupMetadata { db with ctr := ctr' } owner ex.id dec.name
              dec.target_language dec.field_schema dec.prompt_templates now
          else { db with ctr := ctr' })).2 ex.id owner)),
        (restoreCardsWithPolicy owner ex.id dec.cards_payload
          (if p = "override" then "replace" else p)
          (if p = "override" ∨ p = "prefer_newest" then
            applyBackupMetadata { db with ctr := ctr' } owner ex.id dec.name
              dec.target_language dec.field_schema dec.prompt_templates now
          else { db with ctr := ctr' })).2) := by
  have hex' : getDeckByAnkiId { db with ctr := ctr' } owner u = some ex := hex
  simp only [importBackup, hparse, hu, hex']
  rw [if_pos hp]

/-- C10: for an import that targets an existing deck, the deck's metadata
fields (name, target language, field schema, prompt templates) are
overwritten from the archive only under the `override` and
`prefer_newest` policies; under `only_new` the whole `decks` table is
left unchanged and the `cards` table only grows (every pre-existing row
survives in place; rows can only be appended). -/
theorem C10_metadata_policy (z : Zip) (owner : String) (now : Nat) (db : Db)
    (dec : DecodedBackup) (ctr' : Nat) (u : String) (ex : DeckRow)
    (hparse : parseBackup z db.ctr = Except.ok (dec, ctr'))
    (hu : dec.deck_anki_uuid = some u)
    (hex : getDeckByAnkiId db owner u = some ex) :
    ((importBackup owner z (some "only_new") now db).2.decks = db.decks ∧
      ∃ new, (importBackup owner z (some "only_new") now db).2.cards =
        db.cards ++ new) ∧
    (∀ p, p = "override" ∨ p = "prefer_newest" →
      (importBackup owner z (some p) now db).2.decks =
        db.decks.map (fun d =>
          if d.id = ex.id ∧ d.owner_id = owner then
            { d with
              name := dec.name.trim
              target_language := dec.target_language.trim
              field_schema :=
                match dec.field_schema with
                | some v => SchemaVal.normalized v
                | none => SchemaVal.defaults
              prompt_templates :=
                match dec.prompt_templates with
                | some q => q
                | none => PromptVal.defaults
              updated_at := now }
          else d)) := by
  constructor
  · rw [importBackup_policy_reduce z owner now db dec ctr' u ex "only_new"
      (by decide) hparse hu hex]
    rw [if_neg (by decide : ¬("only_new" = "override" ∨ "only_new" = "prefer_newest"))]
    rw [if_neg (by decide : ¬("only_new" = "override"))]
    constructor
    · rw [restore_decks]
    · exact restore_only_new_append owner ex.id dec.cards_payload _
  · intro p hp
    rw [importBackup_policy_reduce z owner now db dec ctr' u ex p
      (by rcases hp with h | h <;> rw [h] <;> decide) hparse hu hex]
    rw [if_pos hp, restore_decks]
    simp only [applyBackupMetadata]

/-- C10 witnessed at the concrete conflict setup of C1 (empty incoming
card list, one existing deck). -/
theorem C10_metadata_policy_witness :
    ((importBackup "uuid:o" zipW (some "only_new") 7
        { decks := [deckW], cards := [], ctr := 0 }).2.decks = [deckW] ∧
      ∃ new, (importBackup "uuid:o" zipW (some "only_new") 7
        { decks := [deckW], cards := [], ctr := 0 }).2.cards = [] ++ new) ∧
    (∀ p, p = "override" ∨ p = "prefer_newest" →
      (importBackup "uuid:o" zipW (some p) 7
          { decks := [deckW], cards := [], ctr := 0 }).2.decks =
        [deckW].map (fun d =>
          if d.id = ({ deckW with
              field_schema := SchemaVal.normalized deckW.field_schema } : DeckRow).id ∧
              d.owner_id = "uuid:o" then
            { d with
              name := decW.name.trim
              target_language := decW.target_language.trim
              field_schema :=
                match decW.field_schema with
                | some v => SchemaVal.normalized v
                | none => SchemaVal.defaults
              prompt_templates :=
                match decW.prompt_templates with
                | some q => q
                | none => PromptVal.defaults
              updated_at := 7 }
          else d)) :=
  C10_metadata_policy zipW "uuid:o" 7
    { decks := [deckW], cards := [], ctr := 0 } decW 0 "uuid:a1"
    { deckW with field_schema := SchemaVal.normalized deckW.field_schema }
    (by decide) rfl (by decide)

/-! ## Direction-map and merge-step facts -/

theorem DirMap.get_forward {α : Type} (m : DirMap α) :
    m.get "forward" = m.forward := by
  rw [DirMap.get, if_pos rfl]

theorem DirMap.get_backward {α : Type} (m : DirMap α) :
    m.get "backward" = m.backward := by
  rw [DirMap.get, if_neg (by decide), if_pos rfl]

theorem DirMap.set_forward {α : Type} (m : DirMap α) (a : α) :
    m.set "forward" a = { m with forward := some a } := by
  rw [DirMap.set, if_pos rfl]

theorem DirMap.set_backward {α : Type} (m : DirMap α) (a : α) :
    m.set "backward" a = { m with backward := some a } := by
  rw [DirMap.set, if_neg (by decide), if_pos rfl]

theorem restoreRow_direction (owner deck group entryU direction : String)
    (c : NormCard) (cid : String) :
    (restoreRow owner deck group entryU direction c cid).direction =
      direction := rfl

/-- Every row of the database after a merge step was already there, or is
a freshly minted row for the step's direction. -/
theorem mergeStep_mem (owner deck entryU d : String) (copt : Option NormCard)
    (n : Nat) (ex : ExistEntry) (db : Db) :
    ∀ r ∈ (mergeStep owner deck entryU d copt (n, ex, db)).2.2.cards,
      r ∈ db.cards ∨
        (r.direction = d ∧ ∃ k, db.ctr ≤ k ∧ r.id = mintUuid k) := by
  intro r hr
  cases copt with
  | none => exact Or.inl hr
  | some c =>
    revert hr
    cases hx : ex.cards.get d with
    | none =>
      simp only [mergeStep, hx, insertEntryCard]
      intro hr
      rcases List.mem_append.mp hr with h | h
      · exact Or.inl h
      · rcases List.mem_singleton.mp h with rfl
        exact Or.inr ⟨rfl, db.ctr, le_refl _, rfl⟩
    | some x =>
      simp only [mergeStep, hx]
      by_cases hc : condReplace c.updated_at x.updated_at = true
      · rw [if_pos hc]
        simp only [insertEntryCard]
        intro hr
        rcases List.mem_append.mp hr with h | h
        · exact Or.inl (List.mem_of_mem_filter h)
        · rcases List.mem_singleton.mp h with rfl
          exact Or.inr ⟨rfl, db.ctr, le_refl _, rfl⟩
      · rw [if_neg hc]
        exact Or.inl

/-- A pre-existing row whose id differs from the id recorded for the
step's direction survives a merge step. -/
theorem mergeStep_keep (owner deck entryU d : String) (copt : Option NormCard)
    (n : Nat) (ex : ExistEntry) (db : Db) (r : CardRow) (hr : r ∈ db.cards)
    (hid : ∀ x, ex.cards.get d = some x → r.id ≠ x.id) :
    r ∈ (mergeStep owner deck entryU d copt (n, ex, db)).2.2.cards := by
  cases copt with
  | none => exact hr
  | some c =>
    cases hx : ex.cards.get d with
    | none =>
      simp only [mergeStep, hx, insertEntryCard]
      exact List.mem_append.mpr (Or.inl hr)
    | some x =>
      simp only [mergeStep, hx]
      by_cases hc : condReplace c.updated_at x.updated_at = true
      · rw [if_pos hc]
        simp only [insertEntryCard]
        refine List.mem_append.mpr (Or.inl ?_)
        exact List.mem_filter.mpr ⟨hr, by simpa using hid x hx⟩
      · rw [if_neg hc]
        exact hr

/-- A merge step only advances the fresh-UUID counter. -/
theorem mergeStep_ctr_le (owner deck entryU d : String)
    (copt : Option NormCard) (n : Nat) (ex : ExistEntry) (db : Db) :
    db.ctr ≤ (mergeStep owner deck entryU d copt (n, ex, db)).2.2.ctr := by
  cases copt with
  | none => exact le_refl _
  | some c =>
    cases hx : ex.cards.get d with
    | none =>
      simp only [mergeStep, hx, insertEntryCard]
      exact Nat.le_succ _
    | some x =>
      simp only [mergeStep, hx]
      by_cases hc : condReplace c.updated_at x.updated_at = true
      · rw [if_pos hc]
        simp only [insertEntryCard]
        exact Nat.le_succ _
      · rw [if_neg hc]

/-- A merge step leaves the untouched direction's slot of the in-memory
entry unchanged. -/
theorem mergeStep_other_slot (owner deck entryU d : String)
    (copt : Option NormCard) (n : Nat) (ex : ExistEntry) (db : Db)
    (d₂ : String) (hne : d ≠ d₂) (hd : d = "forward" ∨ d = "backward") :
    ((mergeStep owner deck entryU d copt (n, ex, db)).2.1).cards.get d₂ =
      ex.cards.get d₂ := by
  have hset : ∀ (rec : ExistRec), (ex.cards.set d rec).get d₂ =
      ex.cards.get d₂ := by
    intro rec
    rcases hd with h | h <;> subst h
    · rw [DirMap.set_forward, DirMap.get, DirMap.get,
        if_neg (fun hh : d₂ = "forward" => hne hh.symm),
        if_neg (fun hh : d₂ = "forward" => hne hh.symm)]
    · rw [DirMap.set_backward, DirMap.get, DirMap.get]
      by_cases h1 : d₂ = "forward"
      · rw [if_pos h1, if_pos h1]
      · rw [if_neg h1, if_neg h1,
          if_neg (fun hh : d₂ = "backward" => hne hh.symm),
          if_neg (fun hh : d₂ = "backward" => hne hh.symm)]
  cases copt with
  | none => rfl
  | some c =>
    cases hx : ex.cards.get d with
    | none =>
      simp only [mergeStep, hx]
      exact hset _
    | some x =>
      simp only [mergeStep, hx]
      by_cases hc : condReplace c.updated_at x.updated_at = true
      · rw [if_pos hc]
        exact hset _
      · rw [if_neg hc]

theorem condReplace_some_some (t u : Nat) :
    condReplace (some t) (some u) = decide (u < t) := rfl

/-- Replacement branch of a merge step: the stored row with the recorded
id is deleted and the incoming card is inserted whole, as one new row. -/
theorem mergeStep_replace_cards (owner deck entryU d : String) (c : NormCard)
    (x : ExistRec) (n : Nat) (ex : ExistEntry) (db : Db)
    (hx : ex.cards.get d = some x)
    (hc : condReplace c.updated_at x.updated_at = true) :
    (mergeStep owner deck entryU d (some c) (n, ex, db)).2.2.cards =
      (db.cards.filter (fun r => decide (r.id ≠ x.id))) ++
        [restoreRow owner deck ex.group_id entryU d c (mintUuid db.ctr)] := by
  simp only [mergeStep, hx]
  rw [if_pos hc]
  rfl

/-- Skip branch of a merge step: nothing happens when the incoming card
is not strictly newer. -/
theorem mergeStep_skip (owner deck entryU d : String) (c : NormCard)
    (x : ExistRec) (n : Nat) (ex : ExistEntry) (db : Db)
    (hx : ex.cards.get d = some x)
    (hc : condReplace c.updated_at x.updated_at = false) :
    mergeStep owner deck entryU d (some c) (n, ex, db) = (n, ex, db) := by
  simp only [mergeStep, hx]
  rw [if_neg (by simp [hc])]

/-! ## C3: the `prefer_newest` per-direction merge rule -/

/-- C3: under `prefer_newest`, for an entry bucket whose identity already
exists, the merge compares per direction: when both the incoming and the
existing card carry timestamps, the existing row is deleted and replaced
by the incoming card — payload, both audio columns and filename moving
together as one whole row — exactly when the incoming `updated_at` is
strictly greater; otherwise the existing row survives untouched and no
row of that direction is added, so one entry may keep one direction from
the archive and the other from the deck. -/
theorem C3_prefer_newest_merge (owner deck entryU : String) (ex : ExistEntry)
    (inc : DirMap NormCard) (db : Db)
    (hdistinct : ∀ xf xb, ex.cards.forward = some xf →
      ex.cards.backward = some xb → xf.id ≠ xb.id)
    (hfresh : ∀ x, (ex.cards.forward = some x ∨ ex.cards.backward = some x) →
      ∀ k, x.id ≠ mintUuid k) :
    ∀ d, (d = "forward" ∨ d = "backward") →
    ∀ c x t u₀, inc.get d = some c → ex.cards.get d = some x →
      c.updated_at = some t → x.updated_at = some u₀ →
      audioWF c.front_audio → audioWF c.back_audio →
      (u₀ < t →
        (∀ r ∈ (mergeEntry owner deck entryU ex inc db).2.2.cards,
          r.id ≠ x.id) ∧
        (∃ r ∈ (mergeEntry owner deck entryU ex inc db).2.2.cards,
          r.card_group_id = ex.group_id ∧ r.entry_anki_id = some entryU ∧
          r.direction = d ∧ r.payload = c.payload ∧
          r.front_audio = c.front_audio ∧ r.back_audio = c.back_audio ∧
          r.audio_filename = c.audio_filename ∧ r.updated_at = some t)) ∧
      (¬ u₀ < t →
        (∀ r ∈ db.cards, r.id = x.id →
          r ∈ (mergeEntry owner deck entryU ex inc db).2.2.cards) ∧
        (∀ r ∈ (mergeEntry owner deck entryU ex inc db).2.2.cards,
          r.direction = d → r ∈ db.cards)) := by
  intro d hd c x t u₀ hincd hexd hct hxu hwfF hwfB
  have hxfresh : ∀ k, x.id ≠ mintUuid k := by
    refine hfresh x ?_
    rcases hd with h | h <;> subst h
    · exact Or.inl (by rw [← DirMap.get_forward]; exact hexd)
    · exact Or.inr (by rw [← DirMap.get_backward]; exact hexd)
  rcases hd with h | h <;> subst h
  · -- d = "forward"
    rw [DirMap.get_forward] at hincd
    rw [DirMap.get_forward] at hexd
    have hx' : ex.cards.get "forward" = some x := by
      rw [DirMap.get_forward]; exact hexd
    constructor
    · -- replacement
      intro hlt
      have hcond : condReplace c.updated_at x.updated_at = true := by
        rw [hct, hxu, condReplace_some_some, decide_eq_true_eq]
        exact hlt
      have hstep1 := mergeStep_replace_cards owner deck entryU "forward" c x
        0 ex db hx' hcond
      have hother := mergeStep_other_slot owner deck entryU "forward"
        (some c) 0 ex db "backward" (by decide) (Or.inl rfl)
      set st₁ := mergeStep owner deck entryU "forward" (some c) (0, ex, db)
        with hst₁
      obtain ⟨n₁, ex₁, db₁⟩ := st₁
      have hpex : ex₁ =
          (mergeStep owner deck entryU "forward" (some c) (0, ex, db)).2.1 := by
        rw [← hst₁]
      have hrowF_mem : restoreRow owner deck ex.group_id entryU "forward" c
          (mintUuid db.ctr) ∈ db₁.cards := by
        show _ ∈ ((n₁, ex₁, db₁) : Nat × ExistEntry × Db).2.2.cards
        rw [hstep1]
        exact List.mem_append.mpr (Or.inr (List.mem_singleton.mpr rfl))
      have hgoal : (mergeEntry owner deck entryU ex inc db) =
          mergeStep owner deck entryU "backward" inc.backward (n₁, ex₁, db₁) := by
        unfold mergeEntry
        rw [hincd, ← hst₁]
      constructor
      · intro r hr
        rw [hgoal] at hr
        rcases mergeStep_mem owner deck entryU "backward" inc.backward
            n₁ ex₁ db₁ r hr with hmem | ⟨_, k, hk, hrk⟩
        · have hmem' : r ∈ ((n₁, ex₁, db₁) : Nat × ExistEntry × Db).2.2.cards :=
            hmem
          rw [hstep1] at hmem'
          rcases List.mem_append.mp hmem' with hmem2 | hmem2
          · have := (List.mem_filter.mp hmem2).2
            simpa using this
          · rcases List.mem_singleton.mp hmem2 with rfl
            exact fun hcontra => hxfresh db.ctr hcontra.symm
        · rw [hrk]
          exact fun hcontra => hxfresh k hcontra.symm
      · refine ⟨restoreRow owner deck ex.group_id entryU "forward" c
          (mintUuid db.ctr), ?_, rfl, rfl, rfl, rfl, ?_, ?_, rfl, ?_⟩
        · rw [hgoal]
          refine mergeStep_keep owner deck entryU "backward" inc.backward
            n₁ ex₁ db₁ _ hrowF_mem ?_
          intro xb hxb
          have hother2 : ex₁.cards.get "backward" =
              ex.cards.get "backward" := hother
          rw [hother2, DirMap.get_backward] at hxb
          have := hfresh xb (Or.inr hxb) db.ctr
          exact fun hcontra => this hcontra.symm
        · simp only [restoreRow]
          exact audioWF_norm hwfF
        · simp only [restoreRow]
          exact audioWF_norm hwfB
        · simp only [restoreRow, hct]
    · -- keep
      intro hnlt
      have hcond : condReplace c.updated_at x.updated_at = false := by
        rw [hct, hxu, condReplace_some_some, decide_eq_false_iff_not]
        exact hnlt
      have hskip := mergeStep_skip owner deck entryU "forward" c x 0 ex db
        hx' hcond
      constructor
      · intro r hr hrid
        unfold mergeEntry
        rw [hincd, hskip]
        refine mergeStep_keep owner deck entryU "backward" inc.backward
          0 ex db r hr ?_
        intro xb hxb
        rw [DirMap.get_backward] at hxb
        rw [hrid]
        exact hdistinct x xb hexd hxb
      · intro r hr hrdir
        unfold mergeEntry at hr
        rw [hincd, hskip] at hr
        rcases mergeStep_mem owner deck entryU "backward" inc.backward
            0 ex db r hr with hmem | ⟨hdir, _⟩
        · exact hmem
        · rw [hrdir] at hdir
          exact absurd hdir (by decide)
  · -- d = "backward"
    rw [DirMap.get_backward] at hincd
    rw [DirMap.get_backward] at hexd
    have hother := mergeStep_other_slot owner deck entryU "forward"
      inc.forward 0 ex db "backward" (by decide) (Or.inl rfl)
    have hctr₁ := mergeStep_ctr_le owner deck entryU "forward" inc.forward
      0 ex db
    set st₁ := mergeStep owner deck entryU "forward" inc.forward (0, ex, db)
      with hst₁
    obtain ⟨n₁, ex₁, db₁⟩ := st₁
    have hpex : ex₁ =
        (mergeStep owner deck entryU "forward" inc.forward (0, ex, db)).2.1 := by
      rw [← hst₁]
    have hpdb : db₁ =
        (mergeStep owner deck entryU "forward" inc.forward (0, ex, db)).2.2 := by
      rw [← hst₁]
    have hother2 : ex₁.cards.get "backward" =
        ex.cards.get "backward" := hother
    have hx₁ : ex₁.cards.get "backward" = some x := by
      rw [hother2, DirMap.get_backward]
      exact hexd
    have hgoal2 : (mergeEntry owner deck entryU ex inc db) =
        mergeStep owner deck entryU "backward" (some c) (n₁, ex₁, db₁) := by
      unfold mergeEntry
      rw [hincd, ← hst₁]
    have hgrp : ex₁.group_id = ex.group_id := by
      rw [hpex]
      cases hif : inc.forward with
      | none => rfl
      | some cf =>
        cases hxf : ex.cards.get "forward" with
        | none => simp only [mergeStep, hxf]
        | some xf =>
          simp only [mergeStep, hxf]
          by_cases hcf : condReplace cf.updated_at xf.updated_at = true
          · rw [if_pos hcf]
          · rw [if_neg hcf]
    constructor
    · intro hlt
      have hcond : condReplace c.updated_at x.updated_at = true := by
        rw [hct, hxu, condReplace_some_some, decide_eq_true_eq]
        exact hlt
      have hstep2 := mergeStep_replace_cards owner deck entryU "backward" c x
        n₁ ex₁ db₁ hx₁ hcond
      have hcards : (mergeEntry owner deck entryU ex inc db).2.2.cards =
          (db₁.cards.filter (fun r => decide (r.id ≠ x.id))) ++
            [restoreRow owner deck ex₁.group_id entryU "backward" c
              (mintUuid db₁.ctr)] := by
        rw [hgoal2]
        exact hstep2
      constructor
      · intro r hr
        rw [hcards] at hr
        rcases List.mem_append.mp hr with hmem | hmem
        · have := (List.mem_filter.mp hmem).2
          simpa using this
        · rcases List.mem_singleton.mp hmem with rfl
          exact fun hcontra => hxfresh db₁.ctr hcontra.symm
      · refine ⟨restoreRow owner deck ex₁.group_id entryU "backward" c
          (mintUuid db₁.ctr), ?_, ?_, rfl, rfl, rfl, ?_, ?_, rfl, ?_⟩
        · rw [hcards]
          exact List.mem_append.mpr (Or.inr (List.mem_singleton.mpr rfl))
        · exact hgrp
        · simp only [restoreRow]
          exact audioWF_norm hwfF
        · simp only [restoreRow]
          exact audioWF_norm hwfB
        · simp only [restoreRow, hct]
    · intro hnlt
      have hcond : condReplace c.updated_at x.updated_at = false := by
        rw [hct, hxu, condReplace_some_some, decide_eq_false_iff_not]
        exact hnlt
      have hskip2 := mergeStep_skip owner deck entryU "backward" c x
        n₁ ex₁ db₁ hx₁ hcond
      have hres : (mergeEntry owner deck entryU ex inc db).2.2.cards =
          db₁.cards := by
        rw [hgoal2, hskip2]
      constructor
      · intro r hr hrid
        rw [hres, hpdb]
        refine mergeStep_keep owner deck entryU "forward" inc.forward
          0 ex db r hr ?_
        intro xf hxf
        rw [DirMap.get_forward] at hxf
        rw [hrid]
        exact fun hcontra => (hdistinct xf x hxf hexd) hcontra.symm
      · intro r hr hrdir
        rw [hres, hpdb] at hr
        rcases mergeStep_mem owner deck entryU "forward" inc.forward
            0 ex db r hr with hmem | ⟨hdir, _⟩
        · exact hmem
        · rw [hrdir] at hdir
          exact absurd hdir (by decide)

theorem ne_mintUuid_of_short {s : String} (h : s.data.length < 8) (k : Nat) :
    s ≠ mintUuid k := by
  intro he
  have hd := congrArg (fun t => t.data.length) he
  simp only [mintUuid, String.data_append, List.length_append,
    List.length_replicate] at hd
  rw [show ("uuid:v4-".data.length) = 8 from by decide] at hd
  omega

/-- Existing forward record for the C3 witness. -/
def xC3 : ExistRec := { id := "uuid:xf", updated_at := some 5 }

/-- Existing entry for the C3 witness. -/
def exC3 : ExistEntry := { group_id := "uuid:g3", cards := ⟨some xC3, none⟩ }

/-- Incoming forward card for the C3 witness. -/
def cC3 : NormCard :=
  { payload := [("k", "v")]
    created_at := some 1
    updated_at := some 9
    front_audio := none
    back_audio := some [1]
    audio_filename := some "m.mp3" }

/-- The stored row the C3 witness replaces. -/
def rowXC3 : CardRow :=
  { id := "uuid:xf"
    card_group_id := "uuid:g3"
    entry_anki_id := some "uuid:e3"
    deck_id := "d"
    owner_id := "o"
    direction := "forward"
    payload := []
    front_audio := none
    back_audio := none
    audio_filename := none
    created_at := none
    updated_at := some 5 }

/-- C3 witnessed: a strictly newer incoming forward card replaces the
stored forward row whole. -/
theorem C3_prefer_newest_merge_witness :
    (∀ r ∈ (mergeEntry "o" "d" "uuid:e3" exC3 (⟨some cC3, none⟩ : DirMap NormCard)
        { decks := [], cards := [rowXC3], ctr := 0 }).2.2.cards,
      r.id ≠ xC3.id) ∧
    (∃ r ∈ (mergeEntry "o" "d" "uuid:e3" exC3 (⟨some cC3, none⟩ : DirMap NormCard)
        { decks := [], cards := [rowXC3], ctr := 0 }).2.2.cards,
      r.card_group_id = exC3.group_id ∧ r.entry_anki_id = some "uuid:e3" ∧
      r.direction = "forward" ∧ r.payload = cC3.payload ∧
      r.front_audio = cC3.front_audio ∧ r.back_audio = cC3.back_audio ∧
      r.audio_filename = cC3.audio_filename ∧ r.updated_at = some 9) := by
  have hdist : ∀ xf xb, exC3.cards.forward = some xf →
      exC3.cards.backward = some xb → xf.id ≠ xb.id := by
    intro xf xb hf hb
    cases hb
  have hfr : ∀ x, (exC3.cards.forward = some x ∨
      exC3.cards.backward = some x) → ∀ k, x.id ≠ mintUuid k := by
    intro x hx k
    rcases hx with h | h
    · cases h
      exact ne_mintUuid_of_short (by decide) k
    · cases h
  have h := C3_prefer_newest_merge "o" "d" "uuid:e3" exC3
    ⟨some cC3, none⟩ { decks := [], cards := [rowXC3], ctr := 0 }
    hdist hfr "forward" (Or.inl rfl) cC3 xC3 9 5 (by decide) (by decide)
    rfl rfl (by unfold audioWF; decide) (by unfold audioWF; decide)
  exact h.1 (by decide)

/-! ## C4 support: characterizing the encoder and the decoder -/

theorem uuid5_isUuidStr (ns s : String) : isUuidStr (uuid5 ns s) = true := by
  simp only [isUuidStr, uuid5, String.data_append, decide_eq_true_eq]
  rw [List.take_append_of_le_length (by decide)]
  decide

theorem isUuidStr_not_empty' {s : String} (h : isUuidStr s = true) :
    s.isEmpty = false := by
  have := isUuidStr_not_empty h
  simp only [Bool.not_eq_true] at this
  exact this

/-- The entry identity the encoder derives for a stored card row (counter
independent because a stored row always has a non-empty id). -/
def cardEntryIdent (c : CardRow) : String :=
  (entryAnkiUuid c.entry_anki_id (some c.card_group_id) (some c.id) 0).1

theorem entryAnkiUuid_stable (e g : Option String) (i : String)
    (hi : ¬ i.isEmpty = true) (ctr : Nat) :
    entryAnkiUuid e g (some i) ctr =
      ((entryAnkiUuid e g (some i) 0).1, ctr) := by
  simp only [entryAnkiUuid]
  split
  · rfl
  · rw [if_pos (show truthyStr (some i) = true by
      simp [truthyStr, hi]), if_pos (show truthyStr (some i) = true by
      simp [truthyStr, hi])]

theorem cardEntryIdent_isUuid (c : CardRow) :
    isUuidStr (cardEntryIdent c) = true := by
  simp only [cardEntryIdent, entryAnkiUuid]
  split
  · assumption
  · split <;> exact uuid5_isUuidStr _ _

/-- The media members the encoder writes for one card. -/
def cardMediaMembers (c : CardRow) : List (MemberName × MemberData) :=
  (if truthyBytes c.front_audio then
    [(MemberName.media c.id "front", MemberData.blob (c.front_audio.getD []))]
  else []) ++
  (if truthyBytes c.back_audio then
    [(MemberName.media c.id "back", MemberData.blob (c.back_audio.getD []))]
  else [])

/-- The manifest entry the encoder writes for one card. -/
def manifestEntryOf (c : CardRow) : ManifestCard :=
  { id := some c.id
    card_group_id := some c.card_group_id
    entry_anki_id := some (cardEntryIdent c)
    anki_card_id := some (stable_card_guid (cardEntryIdent c) c.direction)
    direction := some c.direction
    payload := some c.payload
    audio_filename := c.audio_filename
    created_at := c.created_at
    updated_at := c.updated_at
    front_audio_path :=
      if truthyBytes c.front_audio then some (MemberName.media c.id "front")
      else none
    back_audio_path :=
      if truthyBytes c.back_audio then some (MemberName.media c.id "back")
      else none }

/-- The restore dict the decoder rebuilds for one encoded card. -/
def decodedOf (c : CardRow) : RestoreCard :=
  { id := none
    card_group_id := some c.card_group_id
    entry_anki_id := some (cardEntryIdent c)
    direction := some c.direction
    payload := some c.payload
    audio_filename := c.audio_filename
    created_at := c.created_at
    updated_at := c.updated_at
    front_audio := c.front_audio
    back_audio := c.back_audio }

theorem encodeCard_eq (c : CardRow) (ctr : Nat)
    (hid : ¬ c.id.isEmpty = true) :
    encodeCard c ctr = (cardMediaMembers c, manifestEntryOf c, ctr) := by
  simp only [encodeCard, entryAnkiUuid_stable c.entry_anki_id
    (some c.card_group_id) c.id hid ctr]
  by_cases hf : truthyBytes c.front_audio = true <;>
    by_cases hb : truthyBytes c.back_audio = true <;>
      simp only [cardMediaMembers, manifestEntryOf, cardEntryIdent, hf, hb,
        if_true, if_false, Bool.false_eq_true, List.nil_append,
        List.append_nil]

theorem encodeGo_eq (cards : List CardRow) (ctr : Nat)
    (hid : ∀ c ∈ cards, ¬ c.id.isEmpty = true) :
    encodeGo cards ctr =
      (cards.flatMap cardMediaMembers, cards.map manifestEntryOf, ctr) := by
  induction cards generalizing ctr with
  | nil => rfl
  | cons c rest ih =>
    simp only [encodeGo, encodeCard_eq c ctr (hid c (List.mem_cons_self c rest)),
      ih ctr (fun c' hc' => hid c' (List.mem_cons_of_mem c hc')),
      List.flatMap_cons, List.map_cons]

theorem audioWF_getD {a : Option Bytes} (hwf : audioWF a)
    (ht : truthyBytes a = true) : some (a.getD []) = a := by
  cases a with
  | none => cases ht
  | some b => rfl

theorem audioWF_none {a : Option Bytes} (hwf : audioWF a)
    (ht : ¬ truthyBytes a = true) : a = none := by
  unfold audioWF at hwf
  cases a with
  | none => rfl
  | some b =>
    rw [hwf] at ht
    exact absurd rfl ht

theorem entryAnkiUuid_of_uuid (iden : String) (g i : Option String)
    (h : isUuidStr iden = true) (k : Nat) :
    entryAnkiUuid (some iden) g i k = (iden, k) := by
  have hcand : pyOrStr (some iden) (pyOrStr g i) = some iden := by
    rw [pyOrStr, if_pos (show truthyStr (some iden) = true by
      simp [truthyStr, isUuidStr_not_empty' h])]
  simp only [entryAnkiUuid, hcand]
  rw [if_pos (show isUuidStr ((some iden).getD "None") = true from h)]
  rfl

theorem find?_cardMediaMembers_ne (c : CardRow) (i s : String)
    (h : ¬ c.id = i) :
    (cardMediaMembers c).find?
      (fun p => decide (p.1 = MemberName.media i s)) = none := by
  rw [List.find?_eq_none]
  intro p hp
  simp only [cardMediaMembers] at hp
  rcases List.mem_append.mp hp with hm | hm <;>
    [skip; skip] <;>
    · split at hm
      · rcases List.mem_singleton.mp hm with rfl
        simp only [decide_eq_true_eq]
        intro hc
        injection hc with h1 h2
        exact h h1
      · cases hm

theorem find?_cardMediaMembers_front (c : CardRow)
    (hf : truthyBytes c.front_audio = true) :
    (cardMediaMembers c).find?
        (fun p => decide (p.1 = MemberName.media c.id "front")) =
      some (MemberName.media c.id "front",
        MemberData.blob (c.front_audio.getD [])) := by
  simp only [cardMediaMembers, hf, if_true]
  rw [List.find?_append]
  rw [show List.find? (fun p => decide (p.1 = MemberName.media c.id "front"))
      [(MemberName.media c.id "front",
        MemberData.blob (c.front_audio.getD []))] =
      some (MemberName.media c.id "front",
        MemberData.blob (c.front_audio.getD [])) from by
    rw [List.find?_cons_of_pos]
    simp]
  rfl

theorem find?_cardMediaMembers_back (c : CardRow)
    (hb : truthyBytes c.back_audio = true) :
    (cardMediaMembers c).find?
        (fun p => decide (p.1 = MemberName.media c.id "back")) =
      some (MemberName.media c.id "back",
        MemberData.blob (c.back_audio.getD [])) := by
  have hback : List.find? (fun p => decide (p.1 = MemberName.media c.id "back"))
      [(MemberName.media c.id "back",
        MemberData.blob (c.back_audio.getD []))] =
      some (MemberName.media c.id "back",
        MemberData.blob (c.back_audio.getD [])) := by
    rw [List.find?_cons_of_pos]
    simp
  by_cases hf : truthyBytes c.front_audio = true
  · simp only [cardMediaMembers, hb, hf, if_true]
    rw [List.find?_append]
    rw [show List.find? (fun p => decide (p.1 = MemberName.media c.id "back"))
        [(MemberName.media c.id "front",
          MemberData.blob (c.front_audio.getD []))] = none from by
      rw [List.find?_cons_of_neg]
      · rfl
      · simp]
    rw [hback]
    rfl
  · simp only [cardMediaMembers, hb, hf, Bool.false_eq_true, if_false,
      if_true, List.nil_append]
    exact hback

theorem find?_flatMap_media_manifest (cards : List CardRow) :
    (cards.flatMap cardMediaMembers).find?
      (fun p => decide (p.1 = MemberName.manifestJson)) = none := by
  rw [List.find?_eq_none]
  intro p hp
  rcases List.mem_flatMap.mp hp with ⟨c, _, hmem⟩
  simp only [cardMediaMembers] at hmem
  rcases List.mem_append.mp hmem with hm | hm <;>
    · split at hm
      · rcases List.mem_singleton.mp hm with rfl
        simp
      · cases hm

theorem find?_flatMap_media (cards : List CardRow)
    (hnodup : (cards.map (fun r => r.id)).Nodup) (c : CardRow)
    (hc : c ∈ cards) (s : String) (v : MemberData)
    (hself : (cardMediaMembers c).find?
        (fun p => decide (p.1 = MemberName.media c.id s)) =
      some (MemberName.media c.id s, v)) :
    (cards.flatMap cardMediaMembers).find?
        (fun p => decide (p.1 = MemberName.media c.id s)) =
      some (MemberName.media c.id s, v) := by
  induction cards with
  | nil => cases hc
  | cons hd rest ih =>
    rw [List.flatMap_cons, List.find?_append]
    rcases List.mem_cons.mp hc with rfl | hmem
    · rw [hself]
      rfl
    · have hne : ¬ hd.id = c.id := by
        intro he
        have : hd.id ∈ rest.map (fun r => r.id) :=
          he ▸ List.mem_map_of_mem _ hmem
        exact (List.nodup_cons.mp hnodup).1 this
      rw [find?_cardMediaMembers_ne hd c.id s hne]
      rw [ih (List.nodup_cons.mp hnodup).2 hmem]
      rfl

theorem read_manifest_of_encode (cards : List CardRow) (d : MemberData) :
    (Zip.mk (cards.flatMap cardMediaMembers ++
        [(MemberName.manifestJson, d)])).read MemberName.manifestJson =
      some d := by
  unfold Zip.read
  rw [List.find?_append, find?_flatMap_media_manifest]
  rw [show List.find? (fun p => decide (p.1 = MemberName.manifestJson))
      [(MemberName.manifestJson, d)] = some (MemberName.manifestJson, d) from by
    rw [List.find?_cons_of_pos]
    simp]
  rfl

theorem read_media_of_encode (cards : List CardRow)
    (hnodup : (cards.map (fun r => r.id)).Nodup) (c : CardRow)
    (hc : c ∈ cards) (s : String) (v : MemberData) (d : MemberData)
    (hself : (cardMediaMembers c).find?
        (fun p => decide (p.1 = MemberName.media c.id s)) =
      some (MemberName.media c.id s, v)) :
    (Zip.mk (cards.flatMap cardMediaMembers ++
        [(MemberName.manifestJson, d)])).read (MemberName.media c.id s) =
      some v := by
  unfold Zip.read
  rw [List.find?_append, find?_flatMap_media cards hnodup c hc s v hself]
  rfl

/-- The decoder's card loop, run over the entries the encoder produces,
rebuilds exactly the original (identity, direction, payload, audio)
data. -/
theorem parseCardsGo_encode (z : Zip) (cards : List CardRow)
    (hdir : ∀ c ∈ cards, c.direction = "forward" ∨ c.direction = "backward")
    (hwfF : ∀ c ∈ cards, audioWF c.front_audio)
    (hwfB : ∀ c ∈ cards, audioWF c.back_audio)
    (hreadF : ∀ c ∈ cards, truthyBytes c.front_audio = true →
      z.read (MemberName.media c.id "front") =
        some (MemberData.blob (c.front_audio.getD [])))
    (hreadB : ∀ c ∈ cards, truthyBytes c.back_audio = true →
      z.read (MemberName.media c.id "back") =
        some (MemberData.blob (c.back_audio.getD []))) :
    ∀ (accC : List RestoreCard) (accE : List String) (k : Nat),
    ∃ accE', parseCardsGo z (cards.map manifestEntryOf) accC accE k =
      (accC ++ cards.map decodedOf, accE', k) := by
  induction cards with
  | nil => exact fun accC accE k => ⟨accE, by simp [parseCardsGo]⟩
  | cons c rest ih =>
    intro accC accE k
    have hcmem : c ∈ c :: rest := List.mem_cons_self c rest
    have hfa : readAudio z (manifestEntryOf c).front_audio_path =
        c.front_audio := by
      simp only [manifestEntryOf]
      by_cases hf : truthyBytes c.front_audio = true
      · rw [if_pos hf]
        simp only [readAudio]
        rw [hreadF c hcmem hf]
        exact audioWF_getD (hwfF c hcmem) hf
      · rw [if_neg hf]
        simp only [readAudio]
        exact (audioWF_none (hwfF c hcmem) hf).symm
    have hba : readAudio z (manifestEntryOf c).back_audio_path =
        c.back_audio := by
      simp only [manifestEntryOf]
      by_cases hb : truthyBytes c.back_audio = true
      · rw [if_pos hb]
        simp only [readAudio]
        rw [hreadB c hcmem hb]
        exact audioWF_getD (hwfB c hcmem) hb
      · rw [if_neg hb]
        simp only [readAudio]
        exact (audioWF_none (hwfB c hcmem) hb).symm
    have heu : entryAnkiUuid (manifestEntryOf c).entry_anki_id
        (manifestEntryOf c).card_group_id (manifestEntryOf c).id k =
        (cardEntryIdent c, k) :=
      entryAnkiUuid_of_uuid (cardEntryIdent c) _ _ (cardEntryIdent_isUuid c) k
    obtain ⟨accE', hrest⟩ := ih
      (fun c' h => hdir c' (List.mem_cons_of_mem c h))
      (fun c' h => hwfF c' (List.mem_cons_of_mem c h))
      (fun c' h => hwfB c' (List.mem_cons_of_mem c h))
      (fun c' h => hreadF c' (List.mem_cons_of_mem c h))
      (fun c' h => hreadB c' (List.mem_cons_of_mem c h))
      (accC ++ [decodedOf c])
      (if accE.contains (cardEntryIdent c) then accE
        else accE ++ [cardEntryIdent c]) k
    refine ⟨accE', ?_⟩
    rw [List.map_cons]
    show parseCardsGo z (manifestEntryOf c :: rest.map manifestEntryOf)
      accC accE k = _
    have hdirc : (manifestEntryOf c).direction = some c.direction := rfl
    simp only [parseCardsGo, hdirc]
    rw [if_pos (hdir c hcmem)]
    rw [hfa, hba, heu]
    have h2 : (accC ++ [decodedOf c] ++ List.map decodedOf rest, accE', k) =
        (accC ++ List.map decodedOf (c :: rest), accE', k) := by
      rw [List.map_cons, List.append_assoc]
      rfl
    exact Eq.trans hrest h2

/-! ## C4: archive round-trip -/

/-- C4: decoding the archive produced by `create_backup_archive`
reproduces exactly the original (entry identity, direction, payload)
sequence and the original audio bytes of every card, and for every card
carrying audio the media member recorded in its manifest entry holds
exactly the original bytes. -/
theorem C4_round_trip (deck : DeckRow) (cards : List CardRow)
    (now ctr k : Nat)
    (hdir : ∀ c ∈ cards, c.direction = "forward" ∨ c.direction = "backward")
    (hid : ∀ c ∈ cards, ¬ c.id.isEmpty = true)
    (hnodup : (cards.map (fun r => r.id)).Nodup)
    (hwfF : ∀ c ∈ cards, audioWF c.front_audio)
    (hwfB : ∀ c ∈ cards, audioWF c.back_audio)
    (hname : ¬ deck.name.isEmpty = true)
    (htl : ¬ deck.target_language.isEmpty = true)
    (hanki : deck.anki_id = none ∨
      ∃ a, deck.anki_id = some a ∧ isUuidStr a = true) :
    ∃ dec, parseBackup (createBackupArchive deck cards now ctr).1 k =
        Except.ok (dec, k) ∧
      dec.cards_payload.map
          (fun rc => (rc.entry_anki_id, rc.direction, rc.payload)) =
        cards.map
          (fun c => (some (cardEntryIdent c), some c.direction,
            some c.payload)) ∧
      dec.cards_payload.map (fun rc => (rc.front_audio, rc.back_audio)) =
        cards.map (fun c => (c.front_audio, c.back_audio)) ∧
      (∀ c ∈ cards,
        (truthyBytes c.front_audio = true →
          (createBackupArchive deck cards now ctr).1.read
            (MemberName.media c.id "front") =
            some (MemberData.blob (c.front_audio.getD []))) ∧
        (truthyBytes c.back_audio = true →
          (createBackupArchive deck cards now ctr).1.read
            (MemberName.media c.id "back") =
            some (MemberData.blob (c.back_audio.getD [])))) := by
  have hzip : (createBackupArchive deck cards now ctr).1 =
      Zip.mk (cards.flatMap cardMediaMembers ++
        [(MemberName.manifestJson, MemberData.jsonManifest
          { version := some 2
            generated_at := some now
            deck := some (sanitizeDeck deck)
            cards := some (cards.map manifestEntryOf) })]) := by
    simp only [createBackupArchive, encodeGo_eq cards ctr hid]
  have hreadF : ∀ c ∈ cards, truthyBytes c.front_audio = true →
      (createBackupArchive deck cards now ctr).1.read
        (MemberName.media c.id "front") =
        some (MemberData.blob (c.front_audio.getD [])) := by
    intro c hc hf
    rw [hzip]
    exact read_media_of_encode cards hnodup c hc "front" _ _
      (find?_cardMediaMembers_front c hf)
  have hreadB : ∀ c ∈ cards, truthyBytes c.back_audio = true →
      (createBackupArchive deck cards now ctr).1.read
        (MemberName.media c.id "back") =
        some (MemberData.blob (c.back_audio.getD [])) := by
    intro c hc hb
    rw [hzip]
    exact read_media_of_encode cards hnodup c hc "back" _ _
      (find?_cardMediaMembers_back c hb)
  obtain ⟨accE', hparseGo⟩ := parseCardsGo_encode
    (createBackupArchive deck cards now ctr).1 cards hdir hwfF hwfB
    hreadF hreadB [] [] k
  have hmanifest : (createBackupArchive deck cards now ctr).1.read
      MemberName.manifestJson = some (MemberData.jsonManifest
        { version := some 2
          generated_at := some now
          deck := some (sanitizeDeck deck)
          cards := some (cards.map manifestEntryOf) }) := by
    rw [hzip]
    exact read_manifest_of_encode cards _
  have hnameT : truthyStr (some deck.name) = true := by
    show (!deck.name.isEmpty) = true
    cases h : deck.name.isEmpty with
    | false => rfl
    | true => exact absurd h hname
  have htlT : truthyStr (some deck.target_language) = true := by
    show (!deck.target_language.isEmpty) = true
    cases h : deck.target_language.isEmpty with
    | false => rfl
    | true => exact absurd h htl
  refine ⟨{ deck_info := sanitizeDeck deck
            name := deck.name
            target_language := deck.target_language
            field_schema := some deck.field_schema
            prompt_templates := some deck.prompt_templates
            deck_anki_uuid := deck.anki_id
            cards_payload := cards.map decodedOf
            entry_ids := accE' }, ?_, ?_, ?_, ?_⟩
  · simp only [parseBackup, hmanifest, effectiveVersion]
    rw [if_neg (by decide : ¬((2 : Int) = 0)),
      if_neg (by decide : ¬((2 : Int) ≠ 1 ∧ (2 : Int) ≠ 2))]
    rw [if_neg (show ¬(¬ truthyStr ((some (sanitizeDeck deck)).getD {}).name =
        true ∨ ¬ truthyStr ((some (sanitizeDeck deck)).getD
          {}).target_language = true) by
      simp only [Option.getD_some, sanitizeDeck]
      rw [hnameT, htlT]
      simp)]
    rcases hanki with hnone | ⟨a, ha, hua⟩
    · rw [show ((some (sanitizeDeck deck)).getD {}).anki_id = deck.anki_id
        from rfl, hnone]
      simp only [Option.getD_some]
      rw [hparseGo]
      rfl
    · rw [show ((some (sanitizeDeck deck)).getD {}).anki_id = deck.anki_id
        from rfl]
      simp only [ha]
      rw [if_neg (by simp [isUuidStr_not_empty' hua]), if_pos hua]
      simp only [Option.getD_some]
      rw [hparseGo]
      rfl
  · rw [List.map_map]
    rfl
  · rw [List.map_map]
    rfl
  · exact fun c hc => ⟨hreadF c hc, hreadB c hc⟩

/-- Forward card with front audio for the C4 witness. -/
def cardC4F : CardRow :=
  { id := "uuid:c4f"
    card_group_id := "uuid:g4"
    entry_anki_id := some "uuid:e4"
    deck_id := "uuid:d6"
    owner_id := "uuid:o6"
    direction := "forward"
    payload := [("foreign_phrase", "hund")]
    front_audio := some [0, 1]
    back_audio := none
    audio_filename := some "a.mp3"
    created_at := some 5
    updated_at := some 6 }

/-- Backward card with back audio for the C4 witness. -/
def cardC4B : CardRow :=
  { cardC4F with
    id := "uuid:c4b"
    direction := "backward"
    front_audio := none
    back_audio := some [2, 3] }

/-- C4 witnessed on a two-card deck with audio on both sides. -/
theorem C4_round_trip_witness :
    ∃ dec, parseBackup (createBackupArchive deckD6 [cardC4F, cardC4B] 9 0).1 0 =
        Except.ok (dec, 0) ∧
      dec.cards_payload.map
          (fun rc => (rc.entry_anki_id, rc.direction, rc.payload)) =
        [cardC4F, cardC4B].map
          (fun c => (some (cardEntryIdent c), some c.direction,
            some c.payload)) ∧
      dec.cards_payload.map (fun rc => (rc.front_audio, rc.back_audio)) =
        [cardC4F, cardC4B].map (fun c => (c.front_audio, c.back_audio)) ∧
      (∀ c ∈ [cardC4F, cardC4B],
        (truthyBytes c.front_audio = true →
          (createBackupArchive deckD6 [cardC4F, cardC4B] 9 0).1.read
            (MemberName.media c.id "front") =
            some (MemberData.blob (c.front_audio.getD []))) ∧
        (truthyBytes c.back_audio = true →
          (createBackupArchive deckD6 [cardC4F, cardC4B] 9 0).1.read
            (MemberName.media c.id "back") =
            some (MemberData.blob (c.back_audio.getD [])))) :=
  C4_round_trip deckD6 [cardC4F, cardC4B] 9 0 0
    (by decide) (by decide) (by decide)
    (by unfold audioWF; decide) (by unfold audioWF; decide)
    (by decide) (by decide)
    (Or.inr ⟨"uuid:a6", rfl, by decide⟩)

/-! ## C2 support: association-list (insertion-ordered dict) lemmas -/

theorem beq_true_of_eq {a b : String} (h : a = b) : (a == b) = true := by
  rw [h]
  exact beq_self_eq_true b

theorem lookupA_nil {β : Type} (k : String) : lookupA ([] : List (String × β)) k = none := rfl

theorem lookupA_isSome_of_containsA {β : Type} (l : List (String × β))
    (k : String) : containsA l k = (lookupA l k).isSome := by
  induction l with
  | nil => rfl
  | cons p t ih =>
    obtain ⟨a, b⟩ := p
    show (((a, b).1 == k) || t.any (fun q => q.1 == k)) =
      (Option.map (fun q => q.2) (List.find? (fun q => q.1 == k) ((a, b) :: t))).isSome
    cases hb : (a == k) with
    | true =>
      simp only [List.find?_cons, hb, Bool.true_or]
      rfl
    | false =>
      simp only [List.find?_cons, hb, Bool.false_or]
      exact ih

theorem lookupA_append_right {β : Type} (l : List (String × β)) (k : String)
    (v : β) (h : lookupA l k = none) :
    lookupA (l ++ [(k, v)]) k = some v := by
  unfold lookupA at h ⊢
  rw [List.find?_append]
  have hf : l.find? (fun p => p.1 == k) = none := by
    rcases hx : l.find? (fun p => p.1 == k) with _ | p
    · exact hx
    · rw [hx] at h
      cases h
  rw [hf, show List.find? (fun p : String × β => p.1 == k) [(k, v)] = some (k, v) from by
    simp only [List.find?_cons, beq_self_eq_true]]
  rfl

theorem lookupA_append_other {β : Type} (l : List (String × β))
    (k k' : String) (v : β) (h : ¬ k' = k) :
    lookupA (l ++ [(k, v)]) k' = lookupA l k' := by
  unfold lookupA
  rw [List.find?_append,
    show List.find? (fun p : String × β => p.1 == k') [(k, v)] = none from by
      simp only [List.find?_cons, beq_false_of_ne (fun he => h he.symm), List.find?_nil]]
  rw [Option.or_none]

theorem lookupA_updateA_self {β : Type} (l : List (String × β)) (k : String)
    (f : β → β) : lookupA (updateA l k f) k = (lookupA l k).map f := by
  induction l with
  | nil => rfl
  | cons p t ih =>
    obtain ⟨a, b⟩ := p
    simp only [updateA]
    by_cases h : a = k
    · rw [if_pos h]
      unfold lookupA
      simp only [List.find?_cons, beq_true_of_eq h]
      rfl
    · rw [if_neg h]
      unfold lookupA
      simp only [List.find?_cons, beq_false_of_ne h]
      exact ih

theorem lookupA_updateA_other {β : Type} (l : List (String × β))
    (k k' : String) (f : β → β) (h : ¬ k' = k) :
    lookupA (updateA l k f) k' = lookupA l k' := by
  induction l with
  | nil => rfl
  | cons p t ih =>
    obtain ⟨a, b⟩ := p
    simp only [updateA]
    by_cases hp : a = k
    · rw [if_pos hp]
      unfold lookupA
      simp only [List.find?_cons,
        beq_false_of_ne (fun he : a = k' => h (he ▸ hp ▸ rfl))]
    · rw [if_neg hp]
      by_cases hp' : a = k'
      · unfold lookupA
        simp only [List.find?_cons, beq_true_of_eq hp']
      · unfold lookupA
        simp only [List.find?_cons, beq_false_of_ne hp']
        exact ih

theorem updateA_same {β : Type} (l : List (String × β)) (k : String) (v : β)
    (h : lookupA l k = some v) : updateA l k (fun _ => v) = l := by
  induction l with
  | nil => rfl
  | cons p t ih =>
    obtain ⟨a, b⟩ := p
    simp only [updateA]
    by_cases hp : a = k
    · rw [if_pos hp]
      unfold lookupA at h
      simp only [List.find?_cons, beq_true_of_eq hp] at h
      have hb : b = v := by simpa using h
      rw [hb]
    · rw [if_neg hp]
      unfold lookupA at h
      simp only [List.find?_cons, beq_false_of_ne hp] at h
      rw [ih h]

theorem lookupA_upsertA_other {β : Type} (l : List (String × β))
    (k k' : String) (v : β) (h : ¬ k' = k) :
    lookupA (upsertA l k v) k' = lookupA l k' := by
  unfold upsertA
  split
  · exact lookupA_updateA_other l k k' _ h
  · exact lookupA_append_other l k k' v h

/-! ## C2 support: direction-slot vocabulary for the stored rows -/

/-- `keys` of an association list. -/
def keysOf {β : Type} (l : List (String × β)) : List String := l.map Prod.fst

/-- One step of the `_load_existing_entries` slot assignment, keeping the
record of the last row seen for direction `d`. -/
def slotStep (d : String) (acc : Option ExistRec) (r : CardRow) : Option ExistRec :=
  if r.direction = d then some ⟨r.id, r.updated_at⟩ else acc

/-- The `ExistRec` of the last row with direction `d` in a row list (what
`_load_existing_entries` ends up storing for that direction). -/
def slotLast (L : List CardRow) (d : String) : Option ExistRec :=
  L.foldl (slotStep d) none

/-- Fold of the per-row `cards[direction] = {...}` assignments of
`_load_existing_entries` over a row list. -/
def dirFoldUpd (m : DirMap ExistRec) (L : List CardRow) : DirMap ExistRec :=
  L.foldl (fun m r => m.set r.direction ⟨r.id, r.updated_at⟩) m

/-- The `ExistEntry` that `_load_existing_entries` builds from the rows
grouped under one key, in table order. -/
def entryOfRows : List CardRow → Option ExistEntry
  | [] => none
  | r :: rest => some ⟨r.card_group_id, dirFoldUpd ⟨none, none⟩ (r :: rest)⟩

/-- The stored rows of one owner's deck grouped under dict key `k` by
`_load_existing_entries`, in table order. -/
def entryRowsOf (cards : List CardRow) (owner deck k : String) : List CardRow :=
  (cards.filter (fun r => decide (r.owner_id = owner ∧ r.deck_id = deck))).filter
    (fun r => decide (rowKey r = k))

theorem DirMap.set_other {α : Type} (m : DirMap α) (d : String) (a : α)
    (h1 : ¬ d = "forward") (h2 : ¬ d = "backward") : m.set d a = m := by
  rw [DirMap.set, if_neg h1, if_neg h2]

theorem DirMap.get_set {α : Type} (m : DirMap α) (dir d : String) (a : α)
    (hd : d = "forward" ∨ d = "backward") :
    (m.set dir a).get d = if dir = d then some a else m.get d := by
  by_cases h1 : dir = "forward"
  · subst h1
    rw [DirMap.set_forward]
    rcases hd with h | h <;> subst h
    · rw [DirMap.get_forward, if_pos rfl]
    · rw [DirMap.get_backward, if_neg (by decide), DirMap.get_backward]
  · by_cases h2 : dir = "backward"
    · subst h2
      rw [DirMap.set_backward]
      rcases hd with h | h <;> subst h
      · rw [DirMap.get_forward, if_neg (by decide), DirMap.get_forward]
      · rw [DirMap.get_backward, if_pos rfl]
    · rcases hd with h | h <;> subst h
      · rw [DirMap.set_other m dir a h1 h2, if_neg h1]
      · rw [DirMap.set_other m dir a h1 h2, if_neg h2]

theorem slotFold_eq_or (d : String) (t : List CardRow) :
    ∀ init, t.foldl (slotStep d) init = (slotLast t d).or init := by
  induction t with
  | nil =>
    intro init
    rfl
  | cons r t ih =>
    intro init
    show t.foldl (slotStep d) (slotStep d init r) = (slotLast (r :: t) d).or init
    rw [ih (slotStep d init r),
      show slotLast (r :: t) d = t.foldl (slotStep d) (slotStep d none r) from rfl,
      ih (slotStep d none r)]
    cases h : slotLast t d with
    | some x => rfl
    | none =>
      show slotStep d init r = (slotStep d none r).or init
      unfold slotStep
      by_cases hr : r.direction = d
      · rw [if_pos hr, if_pos hr]
        rfl
      · rw [if_neg hr, if_neg hr]
        rfl

theorem slotLast_cons (r : CardRow) (t : List CardRow) (d : String) :
    slotLast (r :: t) d = (slotLast t d).or (slotStep d none r) := by
  show t.foldl (slotStep d) (slotStep d none r) = _
  exact slotFold_eq_or d t _

theorem slotLast_append (L₁ L₂ : List CardRow) (d : String) :
    slotLast (L₁ ++ L₂) d = (slotLast L₂ d).or (slotLast L₁ d) := by
  unfold slotLast
  rw [List.foldl_append]
  exact slotFold_eq_or d L₂ _

theorem slotLast_append_single (L : List CardRow) (r : CardRow) (d : String) :
    slotLast (L ++ [r]) d =
      if r.direction = d then some ⟨r.id, r.updated_at⟩ else slotLast L d := by
  rw [slotLast_append]
  show (slotStep d none r).or (slotLast L d) = _
  unfold slotStep
  by_cases hr : r.direction = d
  · rw [if_pos hr, if_pos hr]
    rfl
  · rw [if_neg hr, if_neg hr]
    rfl

theorem slotLast_mem (L : List CardRow) (d : String) (x : ExistRec)
    (h : slotLast L d = some x) :
    ∃ r ∈ L, r.id = x.id ∧ r.updated_at = x.updated_at ∧ r.direction = d := by
  induction L with
  | nil => cases h
  | cons r t ih =>
    rw [slotLast_cons] at h
    cases ht : slotLast t d with
    | some y =>
      rw [ht] at h
      have hy : y = x := Option.some.inj h
      obtain ⟨r', hm, h1, h2, h3⟩ := ih (by rw [ht, hy])
      exact ⟨r', List.mem_cons_of_mem _ hm, h1, h2, h3⟩
    | none =>
      rw [ht] at h
      have h' : slotStep d none r = some x := h
      unfold slotStep at h'
      by_cases hr : r.direction = d
      · rw [if_pos hr] at h'
        have hx := Option.some.inj h'
        refine ⟨r, List.mem_cons_self r t, ?_, ?_, hr⟩
        · rw [← hx]
        · rw [← hx]
      · rw [if_neg hr] at h'
        cases h'

theorem slotFold_filter (d : String) (p : CardRow → Bool) (L : List CardRow)
    (hp : ∀ r ∈ L, p r = false → ¬ r.direction = d) :
    ∀ init, (L.filter p).foldl (slotStep d) init = L.foldl (slotStep d) init := by
  induction L with
  | nil =>
    intro init
    rfl
  | cons r t ih =>
    intro init
    have hpt : ∀ r' ∈ t, p r' = false → ¬ r'.direction = d :=
      fun r' hm => hp r' (List.mem_cons_of_mem _ hm)
    cases hpr : p r with
    | true =>
      rw [List.filter_cons_of_pos hpr]
      show (t.filter p).foldl (slotStep d) (slotStep d init r) = _
      exact ih hpt _
    | false =>
      rw [List.filter_cons_of_neg (by simp [hpr])]
      show (t.filter p).foldl (slotStep d) init = t.foldl (slotStep d) (slotStep d init r)
      have hstep : slotStep d init r = init := by
        unfold slotStep
        rw [if_neg (hp r (List.mem_cons_self r t) hpr)]
      rw [ih hpt init, hstep]

theorem slotLast_filter (d : String) (p : CardRow → Bool) (L : List CardRow)
    (hp : ∀ r ∈ L, p r = false → ¬ r.direction = d) :
    slotLast (L.filter p) d = slotLast L d :=
  slotFold_filter d p L hp none

theorem dirFoldUpd_get (L : List CardRow) (d : String)
    (hd : d = "forward" ∨ d = "backward") :
    ∀ m : DirMap ExistRec,
      (dirFoldUpd m L).get d = (slotLast L d).or (m.get d) := by
  induction L with
  | nil =>
    intro m
    rfl
  | cons r t ih =>
    intro m
    show (dirFoldUpd (m.set r.direction ⟨r.id, r.updated_at⟩) t).get d = _
    rw [ih, slotLast_cons]
    cases slotLast t d with
    | some x => rfl
    | none =>
      show (m.set r.direction ⟨r.id, r.updated_at⟩).get d =
        (slotStep d none r).or (m.get d)
      rw [DirMap.get_set _ _ _ _ hd]
      unfold slotStep
      by_cases hr : r.direction = d
      · rw [if_pos hr, if_pos hr]
        rfl
      · rw [if_neg hr, if_neg hr]
        rfl

theorem entryOfRows_get (L : List CardRow) (e : ExistEntry) (d : String)
    (hd : d = "forward" ∨ d = "backward") (h : entryOfRows L = some e) :
    e.cards.get d = slotLast L d := by
  cases L with
  | nil => cases h
  | cons r t =>
    have he : e = ⟨r.card_group_id, dirFoldUpd ⟨none, none⟩ (r :: t)⟩ :=
      (Option.some.inj h).symm
    rw [he]
    show (dirFoldUpd ⟨none, none⟩ (r :: t)).get d = _
    rw [dirFoldUpd_get _ _ hd]
    have hz : (DirMap.mk none none : DirMap ExistRec).get d = none := by
      rcases hd with h' | h' <;> subst h'
      · rw [DirMap.get_forward]
      · rw [DirMap.get_backward]
    rw [hz, Option.or_none]

theorem entryOfRows_eq_none_iff (L : List CardRow) :
    entryOfRows L = none ↔ L = [] := by
  cases L <;> simp [entryOfRows]

/-! ## C2 support: characterizing `_load_existing_entries` -/

theorem loadExistingGo_lookup (k : String) (rows : List CardRow) :
    ∀ acc : List (String × ExistEntry),
    lookupA (loadExistingGo rows acc) k =
      match lookupA acc k with
      | some e => some ⟨e.group_id,
          dirFoldUpd e.cards (rows.filter (fun r => decide (rowKey r = k)))⟩
      | none => entryOfRows (rows.filter (fun r => decide (rowKey r = k))) := by
  induction rows with
  | nil =>
    intro acc
    cases h : lookupA acc k with
    | none => exact h
    | some e => exact h
  | cons r rest ih =>
    intro acc
    by_cases hk : rowKey r = k
    · subst hk
      simp only [loadExistingGo]
      rw [ih]
      by_cases hc : containsA acc (rowKey r) = true
      · obtain ⟨e, he⟩ : ∃ e, lookupA acc (rowKey r) = some e := by
          have hs := lookupA_isSome_of_containsA acc (rowKey r)
          rw [hc] at hs
          exact Option.isSome_iff_exists.mp hs.symm
        rw [if_pos hc, lookupA_updateA_self, he,
          List.filter_cons_of_pos (by simp)]
        rfl
      · have hnone : lookupA acc (rowKey r) = none := by
          have hs := lookupA_isSome_of_containsA acc (rowKey r)
          cases hl : lookupA acc (rowKey r) with
          | none => rfl
          | some e =>
            rw [hl] at hs
            exact absurd hs hc
        rw [if_neg hc, lookupA_updateA_self,
          lookupA_append_right _ _ _ hnone, hnone,
          List.filter_cons_of_pos (by simp)]
        rfl
    · simp only [loadExistingGo]
      rw [ih]
      have hk' : ¬ k = rowKey r := fun he => hk he.symm
      rw [lookupA_updateA_other _ _ _ _ hk']
      have hstep :
          lookupA (if containsA acc (rowKey r) then acc
            else acc ++ [(rowKey r,
              { group_id := r.card_group_id, cards := ⟨none, none⟩ })]) k =
          lookupA acc k := by
        by_cases hc : containsA acc (rowKey r) = true
        · rw [if_pos hc]
        · rw [if_neg hc, lookupA_append_other _ _ _ _ hk']
      rw [hstep, List.filter_cons_of_neg (by simp [hk])]

theorem loadExistingEntries_lookup (db : Db) (owner deck k : String) :
    lookupA (loadExistingEntries db owner deck) k =
      entryOfRows (entryRowsOf db.cards owner deck k) := by
  unfold loadExistingEntries relevantCards entryRowsOf
  rw [loadExistingGo_lookup]
  rfl

/-! ## C2 support: the grouping pass under uuid entry identities -/

theorem truthyStr_of_isUuid {s : String} (h : isUuidStr s = true) :
    truthyStr (some s) = true := by
  show (!(s.isEmpty)) = true
  cases he : s.isEmpty with
  | false => rfl
  | true => exact absurd he (isUuidStr_not_empty h)

theorem groupCand_eq (c : RestoreCard) {s : String} (hs : c.entry_anki_id = some s)
    (hu : isUuidStr s = true) :
    pyOrStr c.entry_anki_id (pyOrStr c.card_group_id c.id) = some s := by
  rw [hs]
  unfold pyOrStr
  rw [if_pos (truthyStr_of_isUuid hu)]

/-- The normalized per-direction card the grouping pass builds from one
restore dict. -/
def groupNorm (c : RestoreCard) : NormCard :=
  { payload := c.payload.getD []
    created_at := c.created_at
    updated_at := match c.updated_at with
      | some t => some t
      | none => c.created_at
    front_audio := c.front_audio
    back_audio := c.back_audio
    audio_filename := c.audio_filename }

theorem groupRestoreGo_cons_skip (c : RestoreCard) (rest : List RestoreCard)
    (acc : List (String × DirMap NormCard)) (ctr : Nat)
    (hd : c.direction = none) :
    groupRestoreGo (c :: rest) acc ctr = groupRestoreGo rest acc ctr := by
  simp only [groupRestoreGo, hd]

theorem groupRestoreGo_cons_baddir (c : RestoreCard) (rest : List RestoreCard)
    (acc : List (String × DirMap NormCard)) (ctr : Nat) (d : String)
    (hd : c.direction = some d) (hdir : ¬ (d = "forward" ∨ d = "backward")) :
    groupRestoreGo (c :: rest) acc ctr = groupRestoreGo rest acc ctr := by
  simp only [groupRestoreGo, hd]
  rw [if_neg hdir]

theorem groupRestoreGo_cons_uuid (c : RestoreCard) (rest : List RestoreCard)
    (acc : List (String × DirMap NormCard)) (ctr : Nat) (d s : String)
    (hd : c.direction = some d) (hdir : d = "forward" ∨ d = "backward")
    (hs : c.entry_anki_id = some s) (hu : isUuidStr s = true) :
    groupRestoreGo (c :: rest) acc ctr =
      groupRestoreGo rest
        (if containsA acc s then
          updateA acc s (fun m => m.set d (groupNorm c))
        else acc ++ [(s, DirMap.set ⟨none, none⟩ d (groupNorm c))]) ctr := by
  simp only [groupRestoreGo, hd]
  rw [if_pos hdir]
  simp only [groupCand_eq c hs hu, truthyStr_of_isUuid hu]
  rw [if_pos trivial]
  rfl

/-- With every card carrying a uuid entry identity, the grouping pass
never consumes fresh uuid4 values and its buckets do not depend on the
counter. -/
theorem groupRestoreGo_stable (cards : List RestoreCard)
    (h : ∀ c ∈ cards, ∃ s, c.entry_anki_id = some s ∧ isUuidStr s = true) :
    ∀ acc ctr, groupRestoreGo cards acc ctr = ((groupRestoreGo cards acc 0).1, ctr) := by
  induction cards with
  | nil =>
    intro acc ctr
    rfl
  | cons c rest ih =>
    intro acc ctr
    have hrest : ∀ c' ∈ rest, ∃ s, c'.entry_anki_id = some s ∧ isUuidStr s = true :=
      fun c' hm => h c' (List.mem_cons_of_mem _ hm)
    obtain ⟨s, hs, hu⟩ := h c (List.mem_cons_self c rest)
    cases hd : c.direction with
    | none =>
      rw [groupRestoreGo_cons_skip c rest acc ctr hd,
        groupRestoreGo_cons_skip c rest acc 0 hd]
      exact ih hrest acc ctr
    | some d =>
      by_cases hdir : d = "forward" ∨ d = "backward"
      · rw [groupRestoreGo_cons_uuid c rest acc ctr d s hd hdir hs hu,
          groupRestoreGo_cons_uuid c rest acc 0 d s hd hdir hs hu]
        exact ih hrest _ ctr
      · rw [groupRestoreGo_cons_baddir c rest acc ctr d hd hdir,
          groupRestoreGo_cons_baddir c rest acc 0 d hd hdir]
        exact ih hrest acc ctr

theorem keysOf_append {β : Type} (l l' : List (String × β)) :
    keysOf (l ++ l') = keysOf l ++ keysOf l' := by
  unfold keysOf
  rw [List.map_append]

theorem updateA_keys {β : Type} (l : List (String × β)) (k : String) (f : β → β) :
    keysOf (updateA l k f) = keysOf l := by
  induction l with
  | nil => rfl
  | cons p t ih =>
    obtain ⟨a, b⟩ := p
    simp only [updateA]
    by_cases h : a = k
    · rw [if_pos h]
      rfl
    · rw [if_neg h]
      show a :: keysOf (updateA t k f) = a :: keysOf t
      rw [ih]

theorem updateA_mem {β : Type} (l : List (String × β)) (k : String) (f : β → β) :
    ∀ p ∈ updateA l k f, p ∈ l ∨ ∃ q ∈ l, p = (q.1, f q.2) := by
  induction l with
  | nil =>
    intro p hp
    cases hp
  | cons q t ih =>
    intro p hp
    simp only [updateA] at hp
    by_cases h : q.1 = k
    · rw [if_pos h] at hp
      rcases List.mem_cons.mp hp with h1 | h1
      · exact Or.inr ⟨q, List.mem_cons_self q t, h1⟩
      · exact Or.inl (List.mem_cons_of_mem _ h1)
    · rw [if_neg h] at hp
      rcases List.mem_cons.mp hp with h1 | h1
      · exact Or.inl (by rw [h1]; exact List.mem_cons_self q t)
      · rcases ih p h1 with h2 | ⟨q', hq', he⟩
        · exact Or.inl (List.mem_cons_of_mem _ h2)
        · exact Or.inr ⟨q', List.mem_cons_of_mem _ hq', he⟩

theorem containsA_false_iff {β : Type} (l : List (String × β)) (k : String) :
    containsA l k = false ↔ ∀ p ∈ l, ¬ p.1 = k := by
  unfold containsA
  rw [List.any_eq_false]
  constructor
  · intro h p hp he
    exact h p hp (by rw [he]; exact beq_self_eq_true k)
  · intro h p hp hb
    exact h p hp (eq_of_beq hb)

theorem not_mem_keys_of_containsA_false {β : Type} (l : List (String × β))
    (k : String) (h : containsA l k = false) : k ∉ keysOf l := by
  intro hk
  obtain ⟨p, hp, he⟩ := List.mem_map.mp hk
  exact (containsA_false_iff l k).mp h p hp he

theorem DirMap.set_isSome {α : Type} (m : DirMap α) (d : String)
    (hd : d = "forward" ∨ d = "backward") (a : α) :
    ((m.set d a).forward.isSome = true) ∨ ((m.set d a).backward.isSome = true) := by
  rcases hd with h | h <;> subst h
  · rw [DirMap.set_forward]
    exact Or.inl rfl
  · rw [DirMap.set_backward]
    exact Or.inr rfl

/-- Invariants of the grouping pass: distinct uuid keys and per-key
buckets holding at least one direction. -/
theorem groupRestoreGo_props (cards : List RestoreCard)
    (h : ∀ c ∈ cards, ∃ s, c.entry_anki_id = some s ∧ isUuidStr s = true) :
    ∀ acc ctr,
      (keysOf acc).Nodup →
      (∀ p ∈ acc, isUuidStr p.1 = true) →
      (∀ p ∈ acc, p.2.forward.isSome = true ∨ p.2.backward.isSome = true) →
      (keysOf (groupRestoreGo cards acc ctr).1).Nodup ∧
      (∀ p ∈ (groupRestoreGo cards acc ctr).1, isUuidStr p.1 = true) ∧
      (∀ p ∈ (groupRestoreGo cards acc ctr).1,
        p.2.forward.isSome = true ∨ p.2.backward.isSome = true) := by
  induction cards with
  | nil =>
    intro acc ctr h1 h2 h3
    exact ⟨h1, h2, h3⟩
  | cons c rest ih =>
    intro acc ctr h1 h2 h3
    have hrest : ∀ c' ∈ rest, ∃ s, c'.entry_anki_id = some s ∧ isUuidStr s = true :=
      fun c' hm => h c' (List.mem_cons_of_mem _ hm)
    obtain ⟨s, hs, hu⟩ := h c (List.mem_cons_self c rest)
    cases hd : c.direction with
    | none =>
      rw [groupRestoreGo_cons_skip c rest acc ctr hd]
      exact ih hrest acc ctr h1 h2 h3
    | some d =>
      by_cases hdir : d = "forward" ∨ d = "backward"
      · rw [groupRestoreGo_cons_uuid c rest acc ctr d s hd hdir hs hu]
        by_cases hc : containsA acc s = true
        · rw [if_pos hc]
          apply ih hrest _ ctr
          · rw [updateA_keys]
            exact h1
          · intro p hp
            rcases updateA_mem _ _ _ p hp with h' | ⟨q, hq, he⟩
            · exact h2 p h'
            · rw [he]
              exact h2 q hq
          · intro p hp
            rcases updateA_mem _ _ _ p hp with h' | ⟨q, hq, he⟩
            · exact h3 p h'
            · rw [he]
              exact DirMap.set_isSome q.2 d hdir _
        · have hcf : containsA acc s = false := by
            cases hcv : containsA acc s with
            | false => rfl
            | true => exact absurd hcv hc
          rw [if_neg hc]
          apply ih hrest _ ctr
          · rw [keysOf_append]
            exact List.Nodup.append h1 (List.nodup_singleton s)
              (List.disjoint_singleton.mpr (not_mem_keys_of_containsA_false _ _ hcf))
          · intro p hp
            rcases List.mem_append.mp hp with h' | h'
            · exact h2 p h'
            · rw [List.mem_singleton.mp h']
              exact hu
          · intro p hp
            rcases List.mem_append.mp hp with h' | h'
            · exact h3 p h'
            · rw [List.mem_singleton.mp h']
              exact DirMap.set_isSome ⟨none, none⟩ d hdir _
      · rw [groupRestoreGo_cons_baddir c rest acc ctr d hd hdir]
        exact ih hrest acc ctr h1 h2 h3

/-! ## C2 support: grouped-row algebra and the insert path -/

theorem rowKey_restoreRow (owner deck group entryU d : String) (c : NormCard)
    (cid : String) (h : ¬ entryU.isEmpty = true) :
    rowKey (restoreRow owner deck group entryU d c cid) = entryU := by
  rw [show rowKey (restoreRow owner deck group entryU d c cid) =
      if entryU.isEmpty then group else entryU from rfl]
  rw [if_neg h]

theorem condReplace_restoreRow (owner deck group entryU d : String)
    (c : NormCard) (cid : String) :
    condReplace c.updated_at
      (restoreRow owner deck group entryU d c cid).updated_at = false := by
  show condReplace c.updated_at
    (match c.updated_at with | some t => some t | none => c.created_at) = false
  cases c.updated_at with
  | none => rfl
  | some t =>
    show condReplace (some t) (some t) = false
    rw [condReplace_some_some]
    simp

theorem entryRowsOf_append (cards L : List CardRow) (owner deck k : String) :
    entryRowsOf (cards ++ L) owner deck k =
      entryRowsOf cards owner deck k ++ entryRowsOf L owner deck k := by
  unfold entryRowsOf
  rw [List.filter_append, List.filter_append]

theorem entryRowsOf_filter (cards : List CardRow) (q : CardRow → Bool)
    (owner deck k : String) :
    entryRowsOf (cards.filter q) owner deck k =
      (entryRowsOf cards owner deck k).filter q := by
  unfold entryRowsOf
  rw [List.filter_comm (fun r => decide (r.owner_id = owner ∧ r.deck_id = deck)) q cards,
    List.filter_comm (fun r => decide (rowKey r = k)) q _]

theorem entryRowsOf_eq_self (L : List CardRow) (owner deck k : String)
    (h : ∀ r ∈ L, r.owner_id = owner ∧ r.deck_id = deck ∧ rowKey r = k) :
    entryRowsOf L owner deck k = L := by
  unfold entryRowsOf
  have h1 : L.filter (fun r => decide (r.owner_id = owner ∧ r.deck_id = deck)) = L :=
    List.filter_eq_self.mpr (fun r hr => decide_eq_true ⟨(h r hr).1, (h r hr).2.1⟩)
  rw [h1]
  exact List.filter_eq_self.mpr (fun r hr => decide_eq_true (h r hr).2.2)

theorem entryRowsOf_eq_nil_of_key (L : List CardRow) (owner deck k k' : String)
    (h : ∀ r ∈ L, rowKey r = k) (hne : ¬ k = k') :
    entryRowsOf L owner deck k' = [] := by
  unfold entryRowsOf
  apply List.filter_eq_nil_iff.mpr
  intro r hr
  have hrL : r ∈ L := List.mem_of_mem_filter hr
  simp only [decide_eq_true_eq]
  rw [h r hrL]
  exact hne

theorem entryRowsOf_mem (cards : List CardRow) (owner deck k : String) :
    ∀ r ∈ entryRowsOf cards owner deck k,
      r ∈ cards ∧ r.owner_id = owner ∧ r.deck_id = deck ∧ rowKey r = k := by
  intro r hr
  have h2 := List.mem_filter.mp hr
  have h1 := List.mem_filter.mp h2.1
  have ho : r.owner_id = owner ∧ r.deck_id = deck := by simpa using h1.2
  exact ⟨h1.1, ho.1, ho.2, by simpa using h2.2⟩

/-- The rows `_insert_entry_cards` appends for one bucket, forward slot
first. -/
def bucketRows (owner deck group entryU : String) (m : DirMap NormCard)
    (ctr : Nat) : List CardRow :=
  match m.forward, m.backward with
  | none, none => []
  | some c, none => [restoreRow owner deck group entryU "forward" c (mintUuid ctr)]
  | none, some c => [restoreRow owner deck group entryU "backward" c (mintUuid ctr)]
  | some cf, some cb =>
    [restoreRow owner deck group entryU "forward" cf (mintUuid ctr),
     restoreRow owner deck group entryU "backward" cb (mintUuid (ctr + 1))]

/-- How many rows one bucket inserts. -/
def bucketCount (m : DirMap NormCard) : Nat :=
  (if m.forward.isSome then 1 else 0) + (if m.backward.isSome then 1 else 0)

theorem insertEntryCards_cards_eq (owner deck group entryU : String)
    (m : DirMap NormCard) (db : Db) :
    (insertEntryCards owner deck group entryU m db).2.2.cards =
      db.cards ++ bucketRows owner deck group entryU m db.ctr := by
  obtain ⟨mf, mb⟩ := m
  cases mf with
  | none =>
    cases mb with
    | none => exact (List.append_nil _).symm
    | some cb => rfl
  | some cf =>
    cases mb with
    | none => rfl
    | some cb =>
      show (db.cards ++ [restoreRow owner deck group entryU "forward" cf (mintUuid db.ctr)]) ++
          [restoreRow owner deck group entryU "backward" cb (mintUuid (db.ctr + 1))] =
        db.cards ++ ([restoreRow owner deck group entryU "forward" cf (mintUuid db.ctr)] ++
          [restoreRow owner deck group entryU "backward" cb (mintUuid (db.ctr + 1))])
      rw [List.append_assoc]

theorem insertEntryCards_ctr_eq (owner deck group entryU : String)
    (m : DirMap NormCard) (db : Db) :
    (insertEntryCards owner deck group entryU m db).2.2.ctr =
      db.ctr + bucketCount m := by
  obtain ⟨mf, mb⟩ := m
  cases mf <;> cases mb <;> rfl

theorem bucketRows_mem (owner deck group entryU : String) (m : DirMap NormCard)
    (ctr : Nat) (hne : ¬ entryU.isEmpty = true) :
    ∀ r ∈ bucketRows owner deck group entryU m ctr,
      r.owner_id = owner ∧ r.deck_id = deck ∧ rowKey r = entryU ∧
        ∃ j, ctr ≤ j ∧ j < ctr + bucketCount m ∧ r.id = mintUuid j := by
  obtain ⟨mf, mb⟩ := m
  cases mf with
  | none =>
    cases mb with
    | none =>
      intro r hr
      cases hr
    | some cb =>
      intro r hr
      rcases List.mem_singleton.mp hr with rfl
      exact ⟨rfl, rfl, rowKey_restoreRow _ _ _ _ _ _ _ hne,
        ctr, le_refl _, Nat.lt_succ_self ctr, rfl⟩
  | some cf =>
    cases mb with
    | none =>
      intro r hr
      rcases List.mem_singleton.mp hr with rfl
      exact ⟨rfl, rfl, rowKey_restoreRow _ _ _ _ _ _ _ hne,
        ctr, le_refl _, Nat.lt_succ_self ctr, rfl⟩
    | some cb =>
      intro r hr
      rcases List.mem_cons.mp hr with h | h
      · rcases h with rfl
        exact ⟨rfl, rfl, rowKey_restoreRow _ _ _ _ _ _ _ hne,
          ctr, le_refl _,
          Nat.lt_of_lt_of_le (Nat.lt_succ_self ctr) (Nat.le_succ (ctr + 1)), rfl⟩
      · rcases List.mem_singleton.mp h with rfl
        exact ⟨rfl, rfl, rowKey_restoreRow _ _ _ _ _ _ _ hne,
          ctr + 1, Nat.le_succ ctr, Nat.lt_succ_self (ctr + 1), rfl⟩

theorem slotLast_singleton (r : CardRow) (d : String) :
    slotLast [r] d = if r.direction = d then some ⟨r.id, r.updated_at⟩ else none := rfl

theorem bucketRows_slot_sat (owner deck group entryU : String)
    (m : DirMap NormCard) (ctr : Nat) (d : String)
    (hd : d = "forward" ∨ d = "backward") (c : NormCard)
    (hdm : m.get d = some c) :
    ∃ x, slotLast (bucketRows owner deck group entryU m ctr) d = some x ∧
      condReplace c.updated_at x.updated_at = false := by
  obtain ⟨mf, mb⟩ := m
  rcases hd with h | h <;> subst h
  · rw [DirMap.get_forward] at hdm
    cases mf with
    | none =>
      have hdm' : (none : Option NormCard) = some c := hdm
      cases hdm'
    | some c' =>
      have hc : c' = c := Option.some.inj hdm
      subst hc
      cases mb with
      | none =>
        refine ⟨⟨(restoreRow owner deck group entryU "forward" c' (mintUuid ctr)).id,
          (restoreRow owner deck group entryU "forward" c' (mintUuid ctr)).updated_at⟩,
          ?_, condReplace_restoreRow owner deck group entryU "forward" c' (mintUuid ctr)⟩
        simp only [bucketRows]
        rw [slotLast_singleton, if_pos (restoreRow_direction _ _ _ _ _ _ _)]
      | some cb =>
        refine ⟨⟨(restoreRow owner deck group entryU "forward" c' (mintUuid ctr)).id,
          (restoreRow owner deck group entryU "forward" c' (mintUuid ctr)).updated_at⟩,
          ?_, condReplace_restoreRow owner deck group entryU "forward" c' (mintUuid ctr)⟩
        simp only [bucketRows]
        rw [slotLast_cons, slotLast_singleton,
          if_neg (show ¬ (restoreRow owner deck group entryU "backward" cb
            (mintUuid (ctr + 1))).direction = "forward" from by
              rw [restoreRow_direction]
              decide)]
        show slotStep "forward" none
          (restoreRow owner deck group entryU "forward" c' (mintUuid ctr)) = _
        unfold slotStep
        rw [if_pos (restoreRow_direction _ _ _ _ _ _ _)]
  · rw [DirMap.get_backward] at hdm
    cases mb with
    | none =>
      have hdm' : (none : Option NormCard) = some c := hdm
      cases hdm'
    | some c' =>
      have hc : c' = c := Option.some.inj hdm
      subst hc
      cases mf with
      | none =>
        refine ⟨⟨(restoreRow owner deck group entryU "backward" c' (mintUuid ctr)).id,
          (restoreRow owner deck group entryU "backward" c' (mintUuid ctr)).updated_at⟩,
          ?_, condReplace_restoreRow owner deck group entryU "backward" c' (mintUuid ctr)⟩
        simp only [bucketRows]
        rw [slotLast_singleton, if_pos (restoreRow_direction _ _ _ _ _ _ _)]
      | some cf =>
        refine ⟨⟨(restoreRow owner deck group entryU "backward" c' (mintUuid (ctr + 1))).id,
          (restoreRow owner deck group entryU "backward" c' (mintUuid (ctr + 1))).updated_at⟩,
          ?_, condReplace_restoreRow owner deck group entryU "backward" c' (mintUuid (ctr + 1))⟩
        simp only [bucketRows]
        rw [slotLast_cons, slotLast_singleton,
          if_pos (restoreRow_direction _ _ _ _ _ _ _)]
        rfl

theorem bucketRows_ne_nil (owner deck group entryU : String) (m : DirMap NormCard)
    (ctr : Nat) (h : m.forward.isSome = true ∨ m.backward.isSome = true) :
    bucketRows owner deck group entryU m ctr ≠ [] := by
  obtain ⟨mf, mb⟩ := m
  cases mf <;> cases mb
  · rcases h with h' | h' <;> cases h'
  · exact fun hx => nomatch hx
  · exact fun hx => nomatch hx
  · exact fun hx => nomatch hx

/-! ## C2 support: merge-step branch equations -/

theorem mergeStep_insert_eq (owner deck entryU d : String) (c : NormCard)
    (n : Nat) (ex : ExistEntry) (db : Db) (hx : ex.cards.get d = none) :
    mergeStep owner deck entryU d (some c) (n, ex, db) =
      (n + 1,
       { ex with cards := ex.cards.set d ⟨mintUuid db.ctr, c.updated_at⟩ },
       { db with
          cards := db.cards ++
            [restoreRow owner deck ex.group_id entryU d c (mintUuid db.ctr)]
          ctr := db.ctr + 1 }) := by
  simp only [mergeStep, hx]
  rfl

theorem mergeStep_replace_eq (owner deck entryU d : String) (c : NormCard)
    (x : ExistRec) (n : Nat) (ex : ExistEntry) (db : Db)
    (hx : ex.cards.get d = some x)
    (hc : condReplace c.updated_at x.updated_at = true) :
    mergeStep owner deck entryU d (some c) (n, ex, db) =
      (n + 1,
       { ex with cards := ex.cards.set d ⟨mintUuid db.ctr, c.updated_at⟩ },
       { db with
          cards := (db.cards.filter (fun r => decide (r.id ≠ x.id))) ++
            [restoreRow owner deck ex.group_id entryU d c (mintUuid db.ctr)]
          ctr := db.ctr + 1 }) := by
  simp only [mergeStep, hx]
  rw [if_pos hc]
  rfl

/-- Everything one merge step does to the grouped stored rows: the
step's direction ends saturated (its last stored row is at least as new
as the incoming card), other directions and other keys are untouched,
row ids stay distinct, and fresh uuid4 values stay fresh. -/
theorem mergeStep_spec (owner deck entryU d : String) (copt : Option NormCard)
    (n : Nat) (ex : ExistEntry) (db : Db)
    (hne : ¬ entryU.isEmpty = true)
    (hslot : ex.cards.get d = slotLast (entryRowsOf db.cards owner deck entryU) d)
    (hnodup : (db.cards.map (fun r => r.id)).Nodup)
    (hfresh : ∀ r ∈ db.cards, ∀ j, db.ctr ≤ j → r.id ≠ mintUuid j) :
    (∀ c₀, copt = some c₀ →
      ∃ x, slotLast (entryRowsOf
          (mergeStep owner deck entryU d copt (n, ex, db)).2.2.cards
          owner deck entryU) d = some x ∧
        condReplace c₀.updated_at x.updated_at = false) ∧
    (∀ d₂, ¬ d₂ = d →
      slotLast (entryRowsOf
          (mergeStep owner deck entryU d copt (n, ex, db)).2.2.cards
          owner deck entryU) d₂ =
        slotLast (entryRowsOf db.cards owner deck entryU) d₂) ∧
    (∀ k', ¬ k' = entryU →
      entryRowsOf (mergeStep owner deck entryU d copt (n, ex, db)).2.2.cards
          owner deck k' =
        entryRowsOf db.cards owner deck k') ∧
    ((mergeStep owner deck entryU d copt (n, ex, db)).2.2.cards.map
      (fun r => r.id)).Nodup ∧
    (∀ r ∈ (mergeStep owner deck entryU d copt (n, ex, db)).2.2.cards,
      ∀ j, (mergeStep owner deck entryU d copt (n, ex, db)).2.2.ctr ≤ j →
        r.id ≠ mintUuid j) ∧
    db.ctr ≤ (mergeStep owner deck entryU d copt (n, ex, db)).2.2.ctr ∧
    (entryRowsOf db.cards owner deck entryU ≠ [] →
      entryRowsOf (mergeStep owner deck entryU d copt (n, ex, db)).2.2.cards
        owner deck entryU ≠ []) := by
  cases copt with
  | none =>
    refine ⟨?_, fun d₂ _ => rfl, fun k' _ => rfl, hnodup, hfresh, le_refl _,
      fun h => h⟩
    intro c₀ hc₀
    exact nomatch hc₀
  | some c =>
    cases hx : ex.cards.get d with
    | none =>
      have hcards : (mergeStep owner deck entryU d (some c) (n, ex, db)).2.2.cards =
          db.cards ++
            [restoreRow owner deck ex.group_id entryU d c (mintUuid db.ctr)] := by
        rw [mergeStep_insert_eq owner deck entryU d c n ex db hx]
      have hctr : (mergeStep owner deck entryU d (some c) (n, ex, db)).2.2.ctr =
          db.ctr + 1 := by
        rw [mergeStep_insert_eq owner deck entryU d c n ex db hx]
      have hrowkey : rowKey (restoreRow owner deck ex.group_id entryU d c
          (mintUuid db.ctr)) = entryU :=
        rowKey_restoreRow _ _ _ _ _ _ _ hne
      have hrowdir : (restoreRow owner deck ex.group_id entryU d c
          (mintUuid db.ctr)).direction = d :=
        restoreRow_direction _ _ _ _ _ _ _
      have hER : entryRowsOf (db.cards ++
            [restoreRow owner deck ex.group_id entryU d c (mintUuid db.ctr)])
            owner deck entryU =
          entryRowsOf db.cards owner deck entryU ++
            [restoreRow owner deck ex.group_id entryU d c (mintUuid db.ctr)] := by
        rw [entryRowsOf_append,
          entryRowsOf_eq_self [restoreRow owner deck ex.group_id entryU d c (mintUuid db.ctr)] owner deck entryU (by
            intro r hr
            rcases List.mem_singleton.mp hr with rfl
            exact ⟨rfl, rfl, hrowkey⟩)]
      refine ⟨?_, ?_, ?_, ?_, ?_, ?_, ?_⟩
      · intro c₀ hc₀
        have hcc : c₀ = c := (Option.some.inj hc₀).symm
        subst hcc
        refine ⟨⟨(restoreRow owner deck ex.group_id entryU d c₀ (mintUuid db.ctr)).id,
          (restoreRow owner deck ex.group_id entryU d c₀ (mintUuid db.ctr)).updated_at⟩,
          ?_, condReplace_restoreRow owner deck ex.group_id entryU d c₀ (mintUuid db.ctr)⟩
        rw [hcards, hER, slotLast_append_single, if_pos hrowdir]
      · intro d₂ hne₂
        rw [hcards, hER, slotLast_append_single,
          if_neg (fun hh => hne₂ (hh.symm.trans hrowdir))]
      · intro k' hk'
        rw [hcards, entryRowsOf_append,
          entryRowsOf_eq_nil_of_key [restoreRow owner deck ex.group_id entryU d c (mintUuid db.ctr)] owner deck entryU k' (by
            intro r hr
            rcases List.mem_singleton.mp hr with rfl
            exact hrowkey) (fun he => hk' he.symm),
          List.append_nil]
      · rw [hcards, List.map_append]
        refine List.Nodup.append hnodup (List.nodup_singleton _) ?_
        intro a ha hb
        obtain ⟨r, hr, hra⟩ := List.mem_map.mp ha
        have hb' : a = mintUuid db.ctr := by simpa using hb
        exact hfresh r hr db.ctr (le_refl _) (by rw [hra, hb'])
      · intro r hr j hj
        rw [hctr] at hj
        rw [hcards] at hr
        rcases List.mem_append.mp hr with h' | h'
        · exact hfresh r h' j (by omega)
        · rcases List.mem_singleton.mp h' with rfl
          intro he
          have he' : mintUuid db.ctr = mintUuid j := he
          have := mintUuid_injective he'
          omega
      · rw [hctr]
        exact Nat.le_succ _
      · intro _
        rw [hcards, hER]
        intro hx2
        exact absurd (List.append_eq_nil.mp hx2).2 (fun h => nomatch h)
    | some x =>
      by_cases hc : condReplace c.updated_at x.updated_at = true
      · have hcards := mergeStep_replace_cards owner deck entryU d c x n ex db hx hc
        have hctr : (mergeStep owner deck entryU d (some c) (n, ex, db)).2.2.ctr =
            db.ctr + 1 := by
          rw [mergeStep_replace_eq owner deck entryU d c x n ex db hx hc]
        have hrowkey : rowKey (restoreRow owner deck ex.group_id entryU d c
            (mintUuid db.ctr)) = entryU :=
          rowKey_restoreRow _ _ _ _ _ _ _ hne
        have hrowdir : (restoreRow owner deck ex.group_id entryU d c
            (mintUuid db.ctr)).direction = d :=
          restoreRow_direction _ _ _ _ _ _ _
        have hsl : slotLast (entryRowsOf db.cards owner deck entryU) d = some x :=
          hslot.symm.trans hx
        obtain ⟨r₀, hr₀mem, hr₀id, hr₀upd, hr₀dir⟩ := slotLast_mem _ _ _ hsl
        have hr₀cards := entryRowsOf_mem db.cards owner deck entryU r₀ hr₀mem
        have huniq : ∀ r ∈ db.cards, r.id = x.id → r = r₀ := by
          intro r hr hrid
          exact List.inj_on_of_nodup_map hnodup hr hr₀cards.1 (by rw [hrid, hr₀id])
        have hERk : entryRowsOf ((db.cards.filter (fun r => decide (r.id ≠ x.id))) ++
              [restoreRow owner deck ex.group_id entryU d c (mintUuid db.ctr)])
              owner deck entryU =
            (entryRowsOf db.cards owner deck entryU).filter
                (fun r => decide (r.id ≠ x.id)) ++
              [restoreRow owner deck ex.group_id entryU d c (mintUuid db.ctr)] := by
          rw [entryRowsOf_append, entryRowsOf_filter,
            entryRowsOf_eq_self [restoreRow owner deck ex.group_id entryU d c (mintUuid db.ctr)] owner deck entryU (by
              intro r hr
              rcases List.mem_singleton.mp hr with rfl
              exact ⟨rfl, rfl, hrowkey⟩)]
        refine ⟨?_, ?_, ?_, ?_, ?_, ?_, ?_⟩
        · intro c₀ hc₀
          have hcc : c₀ = c := (Option.some.inj hc₀).symm
          subst hcc
          refine ⟨⟨(restoreRow owner deck ex.group_id entryU d c₀ (mintUuid db.ctr)).id,
            (restoreRow owner deck ex.group_id entryU d c₀ (mintUuid db.ctr)).updated_at⟩,
            ?_, condReplace_restoreRow owner deck ex.group_id entryU d c₀ (mintUuid db.ctr)⟩
          rw [hcards, hERk, slotLast_append_single, if_pos hrowdir]
        · intro d₂ hne₂
          rw [hcards, hERk, slotLast_append_single,
            if_neg (fun hh => hne₂ (hh.symm.trans hrowdir))]
          apply slotLast_filter
          intro r hr hrf
          have hrid : r.id = x.id := by simpa using hrf
          have hre : r = r₀ := huniq r (entryRowsOf_mem _ _ _ _ r hr).1 hrid
          rw [hre, hr₀dir]
          exact fun hh => hne₂ hh.symm
        · intro k' hk'
          rw [hcards, entryRowsOf_append,
            entryRowsOf_eq_nil_of_key [restoreRow owner deck ex.group_id entryU d c (mintUuid db.ctr)] owner deck entryU k' (by
              intro r hr
              rcases List.mem_singleton.mp hr with rfl
              exact hrowkey) (fun he => hk' he.symm),
            List.append_nil, entryRowsOf_filter]
          apply List.filter_eq_self.mpr
          intro r hr
          apply decide_eq_true
          intro hid
          have hmem := entryRowsOf_mem db.cards owner deck k' r hr
          have hre : r = r₀ := huniq r hmem.1 hid
          apply hk'
          rw [← hmem.2.2.2, hre, hr₀cards.2.2.2]
        · rw [hcards, List.map_append]
          refine List.Nodup.append
            (List.Nodup.sublist (List.Sublist.map _ (List.filter_sublist _)) hnodup)
            (List.nodup_singleton _) ?_
          intro a ha hb
          obtain ⟨r, hr, hra⟩ := List.mem_map.mp ha
          have hb' : a = mintUuid db.ctr := by simpa using hb
          exact hfresh r (List.mem_of_mem_filter hr) db.ctr (le_refl _)
            (by rw [hra, hb'])
        · intro r hr j hj
          rw [hctr] at hj
          rw [hcards] at hr
          rcases List.mem_append.mp hr with h' | h'
          · exact hfresh r (List.mem_of_mem_filter h') j (by omega)
          · rcases List.mem_singleton.mp h' with rfl
            intro he
            have he' : mintUuid db.ctr = mintUuid j := he
            have := mintUuid_injective he'
            omega
        · rw [hctr]
          exact Nat.le_succ _
        · intro _
          rw [hcards, hERk]
          intro hx2
          exact absurd (List.append_eq_nil.mp hx2).2 (fun h => nomatch h)
      · have hcf : condReplace c.updated_at x.updated_at = false := by
          cases hcv : condReplace c.updated_at x.updated_at with
          | false => rfl
          | true => exact absurd hcv hc
        have heq := mergeStep_skip owner deck entryU d c x n ex db hx hcf
        rw [heq]
        refine ⟨?_, fun d₂ _ => rfl, fun k' _ => rfl, hnodup, hfresh, le_refl _,
          fun h => h⟩
        intro c₀ hc₀
        have hcc : c₀ = c := (Option.some.inj hc₀).symm
        subst hcc
        exact ⟨x, hslot.symm.trans hx, hcf⟩

/-- Composition of the two directions of `_merge_entry`: after the merge,
every incoming direction is saturated, other keys are untouched, and the
id/freshness invariants persist. -/
theorem mergeEntry_spec (owner deck entryU : String) (ex : ExistEntry)
    (inc : DirMap NormCard) (db : Db)
    (hne : ¬ entryU.isEmpty = true)
    (hslotF : ex.cards.get "forward" =
      slotLast (entryRowsOf db.cards owner deck entryU) "forward")
    (hslotB : ex.cards.get "backward" =
      slotLast (entryRowsOf db.cards owner deck entryU) "backward")
    (hnodup : (db.cards.map (fun r => r.id)).Nodup)
    (hfresh : ∀ r ∈ db.cards, ∀ j, db.ctr ≤ j → r.id ≠ mintUuid j) :
    (∀ d, (d = "forward" ∨ d = "backward") → ∀ c₀, inc.get d = some c₀ →
      ∃ x, slotLast (entryRowsOf
          (mergeEntry owner deck entryU ex inc db).2.2.cards
          owner deck entryU) d = some x ∧
        condReplace c₀.updated_at x.updated_at = false) ∧
    (∀ k', ¬ k' = entryU →
      entryRowsOf (mergeEntry owner deck entryU ex inc db).2.2.cards
          owner deck k' = entryRowsOf db.cards owner deck k') ∧
    ((mergeEntry owner deck entryU ex inc db).2.2.cards.map
      (fun r => r.id)).Nodup ∧
    (∀ r ∈ (mergeEntry owner deck entryU ex inc db).2.2.cards,
      ∀ j, (mergeEntry owner deck entryU ex inc db).2.2.ctr ≤ j →
        r.id ≠ mintUuid j) ∧
    db.ctr ≤ (mergeEntry owner deck entryU ex inc db).2.2.ctr ∧
    (entryRowsOf db.cards owner deck entryU ≠ [] →
      entryRowsOf (mergeEntry owner deck entryU ex inc db).2.2.cards
        owner deck entryU ≠ []) := by
  obtain ⟨sF1, sF2, sF3, sF4, sF5, sF6, sF7⟩ :=
    mergeStep_spec owner deck entryU "forward" inc.forward 0 ex db
      hne hslotF hnodup hfresh
  have hother := mergeStep_other_slot owner deck entryU "forward" inc.forward
    0 ex db "backward" (by decide) (Or.inl rfl)
  rcases hst : mergeStep owner deck entryU "forward" inc.forward (0, ex, db)
    with ⟨n₁, ex₁, db₁⟩
  simp only [hst] at sF1 sF2 sF3 sF4 sF5 sF6 sF7 hother
  have hslotB₁ : ex₁.cards.get "backward" =
      slotLast (entryRowsOf db₁.cards owner deck entryU) "backward" := by
    rw [hother, hslotB]
    exact (sF2 "backward" (by decide)).symm
  obtain ⟨sB1, sB2, sB3, sB4, sB5, sB6, sB7⟩ :=
    mergeStep_spec owner deck entryU "backward" inc.backward n₁ ex₁ db₁
      hne hslotB₁ sF4 sF5
  have hme : mergeEntry owner deck entryU ex inc db =
      mergeStep owner deck entryU "backward" inc.backward (n₁, ex₁, db₁) := by
    unfold mergeEntry
    rw [hst]
  refine ⟨?_, ?_, ?_, ?_, ?_, ?_⟩
  · intro d hd c₀ hc₀
    rcases hd with h | h <;> subst h
    · rw [DirMap.get_forward] at hc₀
      obtain ⟨x, hx1, hx2⟩ := sF1 c₀ hc₀
      refine ⟨x, ?_, hx2⟩
      rw [hme, sB2 "forward" (by decide)]
      exact hx1
    · rw [DirMap.get_backward] at hc₀
      obtain ⟨x, hx1, hx2⟩ := sB1 c₀ hc₀
      refine ⟨x, ?_, hx2⟩
      rw [hme]
      exact hx1
  · intro k' hk'
    rw [hme, sB3 k' hk', sF3 k' hk']
  · rw [hme]
    exact sB4
  · rw [hme]
    exact sB5
  · rw [hme]
    exact le_trans sF6 sB6
  · intro hnn
    rw [hme]
    exact sB7 (sF7 hnn)

/-! ## C2 support: saturation of one grouped entry -/

/-- One incoming bucket is saturated against the stored rows: its key has
stored rows, and under `prefer_newest` each incoming direction is not
strictly newer than the last stored row of that direction, so a re-run
merges nothing. -/
def SatEntry (mode owner deck : String) (cards : List CardRow) (k : String)
    (b : DirMap NormCard) : Prop :=
  entryRowsOf cards owner deck k ≠ [] ∧
  (mode = "prefer_newest" → ∀ d, (d = "forward" ∨ d = "backward") →
    ∀ c, b.get d = some c →
      ∃ x, slotLast (entryRowsOf cards owner deck k) d = some x ∧
        condReplace c.updated_at x.updated_at = false)

theorem SatEntry_congr (mode owner deck k : String) (b : DirMap NormCard)
    (cards cards' : List CardRow)
    (h : entryRowsOf cards' owner deck k = entryRowsOf cards owner deck k)
    (hs : SatEntry mode owner deck cards k b) :
    SatEntry mode owner deck cards' k b := by
  obtain ⟨h1, h2⟩ := hs
  refine ⟨by rw [h]; exact h1, ?_⟩
  intro hm d hd c hc
  rw [h]
  exact h2 hm d hd c hc

theorem bucketRows_ids_nodup (owner deck group entryU : String)
    (m : DirMap NormCard) (ctr : Nat) :
    ((bucketRows owner deck group entryU m ctr).map (fun r => r.id)).Nodup := by
  obtain ⟨mf, mb⟩ := m
  cases mf <;> cases mb
  · exact List.nodup_nil
  · exact List.nodup_singleton _
  · exact List.nodup_singleton _
  · refine List.nodup_cons.mpr ⟨?_, List.nodup_singleton _⟩
    intro hmem
    have he : mintUuid ctr = mintUuid (ctr + 1) := by simpa using hmem
    have := mintUuid_injective he
    omega

/-- One `_apply_entry_restore` step under `prefer_newest` or `only_new`:
the processed bucket's key ends saturated, every other key's stored rows
and dict entry are untouched, and the id/freshness invariants persist. -/
theorem applyEntryRestore_step (owner deck mode : String)
    (hmode : mode = "prefer_newest" ∨ mode = "only_new")
    (n : Nat) (map : List (String × ExistEntry)) (db : Db)
    (k : String) (b : DirMap NormCard)
    (hk : isUuidStr k = true)
    (hb : b.forward.isSome = true ∨ b.backward.isSome = true)
    (hcoh : lookupA map k = entryOfRows (entryRowsOf db.cards owner deck k))
    (hnodup : (db.cards.map (fun r => r.id)).Nodup)
    (hfresh : ∀ r ∈ db.cards, ∀ j, db.ctr ≤ j → r.id ≠ mintUuid j) :
    SatEntry mode owner deck
      (applyEntryRestore owner deck mode (n, map, db) (k, b)).2.2.cards k b ∧
    (∀ k', ¬ k' = k →
      entryRowsOf (applyEntryRestore owner deck mode (n, map, db) (k, b)).2.2.cards
          owner deck k' = entryRowsOf db.cards owner deck k') ∧
    (∀ k', ¬ k' = k →
      lookupA (applyEntryRestore owner deck mode (n, map, db) (k, b)).2.1 k' =
        lookupA map k') ∧
    ((applyEntryRestore owner deck mode (n, map, db) (k, b)).2.2.cards.map
      (fun r => r.id)).Nodup ∧
    (∀ r ∈ (applyEntryRestore owner deck mode (n, map, db) (k, b)).2.2.cards,
      ∀ j, (applyEntryRestore owner deck mode (n, map, db) (k, b)).2.2.ctr ≤ j →
        r.id ≠ mintUuid j) ∧
    db.ctr ≤ (applyEntryRestore owner deck mode (n, map, db) (k, b)).2.2.ctr := by
  have hne : ¬ k.isEmpty = true := isUuidStr_not_empty hk
  have hsafe : safeUuidOf k db = (k, db) := by
    unfold safeUuidOf
    rw [if_pos hk]
  cases hEO : entryOfRows (entryRowsOf db.cards owner deck k) with
  | none =>
    have hlook : lookupA map k = none := hcoh.trans hEO
    have hERnil : entryRowsOf db.cards owner deck k = [] :=
      (entryOfRows_eq_none_iff _).mp hEO
    simp only [applyEntryRestore, hsafe, hlook]
    have hcards2 : (insertEntryCards owner deck (mintUuid db.ctr) k b
        { db with ctr := db.ctr + 1 }).2.2.cards =
        db.cards ++ bucketRows owner deck (mintUuid db.ctr) k b (db.ctr + 1) :=
      insertEntryCards_cards_eq owner deck (mintUuid db.ctr) k b
        { db with ctr := db.ctr + 1 }
    have hctr2 : (insertEntryCards owner deck (mintUuid db.ctr) k b
        { db with ctr := db.ctr + 1 }).2.2.ctr =
        db.ctr + 1 + bucketCount b :=
      insertEntryCards_ctr_eq owner deck (mintUuid db.ctr) k b
        { db with ctr := db.ctr + 1 }
    rw [hcards2, hctr2]
    have hbk := bucketRows_mem owner deck (mintUuid db.ctr) k b (db.ctr + 1) hne
    have hERnew : entryRowsOf (db.cards ++
          bucketRows owner deck (mintUuid db.ctr) k b (db.ctr + 1)) owner deck k =
        bucketRows owner deck (mintUuid db.ctr) k b (db.ctr + 1) := by
      rw [entryRowsOf_append, hERnil,
        entryRowsOf_eq_self (bucketRows owner deck (mintUuid db.ctr) k b (db.ctr + 1))
          owner deck k
          (fun r hr => ⟨(hbk r hr).1, (hbk r hr).2.1, (hbk r hr).2.2.1⟩)]
      exact List.nil_append _
    refine ⟨⟨?_, ?_⟩, ?_, ?_, ?_, ?_, ?_⟩
    · rw [hERnew]
      exact bucketRows_ne_nil owner deck (mintUuid db.ctr) k b (db.ctr + 1) hb
    · intro _ d hd c hcdm
      rw [hERnew]
      exact bucketRows_slot_sat owner deck (mintUuid db.ctr) k b (db.ctr + 1)
        d hd c hcdm
    · intro k' hk'
      rw [entryRowsOf_append,
        entryRowsOf_eq_nil_of_key (bucketRows owner deck (mintUuid db.ctr) k b
          (db.ctr + 1)) owner deck k k'
          (fun r hr => (hbk r hr).2.2.1) (fun he => hk' he.symm),
        List.append_nil]
    · intro k' hk'
      exact lookupA_upsertA_other map k k' _ hk'
    · rw [List.map_append]
      refine List.Nodup.append hnodup
        (bucketRows_ids_nodup owner deck (mintUuid db.ctr) k b (db.ctr + 1)) ?_
      intro a ha hb'
      obtain ⟨r, hr, hra⟩ := List.mem_map.mp ha
      obtain ⟨r', hr', hra'⟩ := List.mem_map.mp hb'
      obtain ⟨j, hj1, hj2, hj3⟩ := (hbk r' hr').2.2.2
      exact hfresh r hr j (by omega) (by rw [hra, ← hra', hj3])
    · intro r hr j hj
      rcases List.mem_append.mp hr with h' | h'
      · exact hfresh r h' j (by omega)
      · obtain ⟨j₀, hj1, hj2, hj3⟩ := (hbk r h').2.2.2
        rw [hj3]
        intro he
        have := mintUuid_injective he
        omega
    · omega
  | some e =>
    have hlook : lookupA map k = some e := hcoh.trans hEO
    have hnn : entryRowsOf db.cards owner deck k ≠ [] := by
      intro h0
      rw [(entryOfRows_eq_none_iff _).mpr h0] at hEO
      cases hEO
    rcases hmode with hm | hm <;> subst hm
    · obtain ⟨m1, m2, m3, m4, m5, m6⟩ :=
        mergeEntry_spec owner deck k e b db hne
          (entryOfRows_get _ e "forward" (Or.inl rfl) hEO)
          (entryOfRows_get _ e "backward" (Or.inr rfl) hEO)
          hnodup hfresh
      simp only [applyEntryRestore, hsafe, hlook]
      refine ⟨⟨m6 hnn, fun _ => m1⟩, m2, ?_, m3, m4, m5⟩
      intro k' hk'
      exact lookupA_updateA_other map k k' _ hk'
    · simp only [applyEntryRestore, hsafe, hlook]
      refine ⟨⟨hnn, ?_⟩, fun k' _ => rfl, fun k' _ => rfl, hnodup, hfresh, le_refl _⟩
      intro hmp
      exact absurd hmp (by decide)

/-- First-run invariant: after folding `_apply_entry_restore` over the
grouped buckets, every processed bucket is saturated, untouched keys keep
their stored rows, and the id/freshness invariants persist. -/
theorem restoreFold_sat (owner deck mode : String)
    (hmode : mode = "prefer_newest" ∨ mode = "only_new") :
    ∀ (E : List (String × DirMap NormCard)) (n : Nat)
      (map : List (String × ExistEntry)) (db : Db),
    (keysOf E).Nodup →
    (∀ p ∈ E, isUuidStr p.1 = true) →
    (∀ p ∈ E, p.2.forward.isSome = true ∨ p.2.backward.isSome = true) →
    (∀ p ∈ E, lookupA map p.1 =
      entryOfRows (entryRowsOf db.cards owner deck p.1)) →
    (db.cards.map (fun r => r.id)).Nodup →
    (∀ r ∈ db.cards, ∀ j, db.ctr ≤ j → r.id ≠ mintUuid j) →
    (∀ p ∈ E, SatEntry mode owner deck
      (E.foldl (applyEntryRestore owner deck mode) (n, map, db)).2.2.cards
      p.1 p.2) ∧
    (∀ k', (∀ p ∈ E, ¬ p.1 = k') →
      entryRowsOf
          (E.foldl (applyEntryRestore owner deck mode) (n, map, db)).2.2.cards
          owner deck k' =
        entryRowsOf db.cards owner deck k') ∧
    ((E.foldl (applyEntryRestore owner deck mode) (n, map, db)).2.2.cards.map
      (fun r => r.id)).Nodup ∧
    (∀ r ∈ (E.foldl (applyEntryRestore owner deck mode) (n, map, db)).2.2.cards,
      ∀ j, (E.foldl (applyEntryRestore owner deck mode) (n, map, db)).2.2.ctr ≤ j →
        r.id ≠ mintUuid j) ∧
    db.ctr ≤ (E.foldl (applyEntryRestore owner deck mode) (n, map, db)).2.2.ctr := by
  intro E
  induction E with
  | nil =>
    intro n map db _ _ _ _ hnodup hfresh
    exact ⟨(fun p hp => nomatch hp), fun k' _ => rfl, hnodup, hfresh, le_refl _⟩
  | cons p E' ih =>
    obtain ⟨k, b⟩ := p
    intro n map db hkeys huuid hbne hcoh hnodup hfresh
    have hkeys' : (keysOf E').Nodup := (List.nodup_cons.mp hkeys).2
    have hknotin : k ∉ keysOf E' := (List.nodup_cons.mp hkeys).1
    have hkne : ∀ q ∈ E', ¬ q.1 = k := by
      intro q hq he
      exact hknotin (he ▸ List.mem_map_of_mem Prod.fst hq)
    obtain ⟨hSat₀, hOK₀, hMK₀, hN₁, hF₁, hC₁⟩ :=
      applyEntryRestore_step owner deck mode hmode n map db k b
        (huuid (k, b) (List.mem_cons_self _ _))
        (hbne (k, b) (List.mem_cons_self _ _))
        (hcoh (k, b) (List.mem_cons_self _ _)) hnodup hfresh
    rw [List.foldl_cons]
    rcases hst : applyEntryRestore owner deck mode (n, map, db) (k, b)
      with ⟨n₁, map₁, db₁⟩
    simp only [hst] at hSat₀ hOK₀ hMK₀ hN₁ hF₁ hC₁
    obtain ⟨ihSat, ihOK, ihN, ihF, ihC⟩ :=
      ih n₁ map₁ db₁ hkeys'
        (fun q hq => huuid q (List.mem_cons_of_mem _ hq))
        (fun q hq => hbne q (List.mem_cons_of_mem _ hq))
        (by
          intro q hq
          rw [hMK₀ q.1 (hkne q hq), hOK₀ q.1 (hkne q hq)]
          exact hcoh q (List.mem_cons_of_mem _ hq))
        hN₁ hF₁
    refine ⟨?_, ?_, ihN, ihF, le_trans hC₁ ihC⟩
    · intro q hq
      rcases List.mem_cons.mp hq with h' | h'
      · rcases h' with rfl
        exact SatEntry_congr mode owner deck k b db₁.cards _
          (ihOK k (fun q' hq' => hkne q' hq')) hSat₀
      · exact ihSat q h'
    · intro k' hk'
      rw [ihOK k' (fun q hq => hk' q (List.mem_cons_of_mem _ hq)),
        hOK₀ k' (fun he => hk' (k, b) (List.mem_cons_self _ _) he.symm)]

/-- Second-run step: a saturated bucket leaves the whole
`(inserted, existing_entries, db)` state untouched. -/
theorem applyEntryRestore_noop (owner deck mode : String)
    (hmode : mode = "prefer_newest" ∨ mode = "only_new")
    (n : Nat) (map : List (String × ExistEntry)) (db : Db)
    (k : String) (b : DirMap NormCard)
    (hk : isUuidStr k = true)
    (hcoh : lookupA map k = entryOfRows (entryRowsOf db.cards owner deck k))
    (hsat : SatEntry mode owner deck db.cards k b) :
    applyEntryRestore owner deck mode (n, map, db) (k, b) = (n, map, db) := by
  have hsafe : safeUuidOf k db = (k, db) := by
    unfold safeUuidOf
    rw [if_pos hk]
  obtain ⟨hnn, hpref⟩ := hsat
  obtain ⟨e, hEO⟩ : ∃ e, entryOfRows (entryRowsOf db.cards owner deck k) = some e := by
    cases hEO : entryOfRows (entryRowsOf db.cards owner deck k) with
    | none => exact absurd ((entryOfRows_eq_none_iff _).mp hEO) hnn
    | some e => exact ⟨e, rfl⟩
  have hlook : lookupA map k = some e := hcoh.trans hEO
  rcases hmode with hm | hm <;> subst hm
  · have hF : mergeStep owner deck k "forward" b.forward (0, e, db) = (0, e, db) := by
      cases hbf : b.forward with
      | none => rfl
      | some c =>
        obtain ⟨x, hx1, hx2⟩ := hpref rfl "forward" (Or.inl rfl) c
          (by rw [DirMap.get_forward]; exact hbf)
        exact mergeStep_skip owner deck k "forward" c x 0 e db
          ((entryOfRows_get _ e "forward" (Or.inl rfl) hEO).trans hx1) hx2
    have hB : mergeStep owner deck k "backward" b.backward (0, e, db) = (0, e, db) := by
      cases hbb : b.backward with
      | none => rfl
      | some c =>
        obtain ⟨x, hx1, hx2⟩ := hpref rfl "backward" (Or.inr rfl) c
          (by rw [DirMap.get_backward]; exact hbb)
        exact mergeStep_skip owner deck k "backward" c x 0 e db
          ((entryOfRows_get _ e "backward" (Or.inr rfl) hEO).trans hx1) hx2
    have hmerge : mergeEntry owner deck k e b db = (0, e, db) := by
      unfold mergeEntry
      rw [hF]
      exact hB
    simp only [applyEntryRestore, hsafe, hlook, hmerge]
    show (n + 0, updateA map k (fun _ => e), db) = (n, map, db)
    rw [Nat.add_zero, updateA_same map k e hlook]
  · simp only [applyEntryRestore, hsafe, hlook]
    rw [if_pos trivial]

/-- Second run: with every bucket saturated the whole fold is the
identity, inserting nothing. -/
theorem restoreFold_noop (owner deck mode : String)
    (hmode : mode = "prefer_newest" ∨ mode = "only_new") :
    ∀ (E : List (String × DirMap NormCard)) (n : Nat)
      (map : List (String × ExistEntry)) (db : Db),
    (∀ p ∈ E, isUuidStr p.1 = true) →
    (∀ p ∈ E, lookupA map p.1 =
      entryOfRows (entryRowsOf db.cards owner deck p.1)) →
    (∀ p ∈ E, SatEntry mode owner deck db.cards p.1 p.2) →
    E.foldl (applyEntryRestore owner deck mode) (n, map, db) = (n, map, db) := by
  intro E
  induction E with
  | nil =>
    intro n map db _ _ _
    rfl
  | cons p E' ih =>
    obtain ⟨k, b⟩ := p
    intro n map db huuid hcoh hsat
    rw [List.foldl_cons,
      applyEntryRestore_noop owner deck mode hmode n map db k b
        (huuid (k, b) (List.mem_cons_self _ _))
        (hcoh (k, b) (List.mem_cons_self _ _))
        (hsat (k, b) (List.mem_cons_self _ _))]
    exact ih n map db
      (fun q hq => huuid q (List.mem_cons_of_mem _ hq))
      (fun q hq => hcoh q (List.mem_cons_of_mem _ hq))
      (fun q hq => hsat q (List.mem_cons_of_mem _ hq))

/-- C2: restoring an archive's cards with policy `prefer_newest` or
`only_new` and then restoring the same unchanged card payload a second
time inserts zero rows on the second run: `restore_cards_with_policy`
returns 0 and the stored state — in particular the deck's card table — is
unchanged.  Stated for well-formed inputs: every restore card carries a
uuid entry identity (as every archive-decoded card does), stored row ids
are distinct (the table's PRIMARY KEY), and stored ids never collide with
fresh uuid4 values (collision-freeness of random UUIDs). -/
theorem C2_idempotent (owner deck : String) (cards : List RestoreCard)
    (mode : String) (db : Db)
    (hmode : mode = "prefer_newest" ∨ mode = "only_new")
    (hids : ∀ c ∈ cards, ∃ s, c.entry_anki_id = some s ∧ isUuidStr s = true)
    (hnodup : (db.cards.map (fun r => r.id)).Nodup)
    (hfresh : ∀ r ∈ db.cards, ∀ j, db.ctr ≤ j → r.id ≠ mintUuid j) :
    restoreCardsWithPolicy owner deck cards mode
        (restoreCardsWithPolicy owner deck cards mode db).2 =
      (0, (restoreCardsWithPolicy owner deck cards mode db).2) := by
  have hmodeNR : ¬ mode = "replace" := by
    rcases hmode with h | h <;> subst h <;> decide
  have hstable : ∀ ctr : Nat, groupRestorePayload cards ctr =
      ((groupRestoreGo cards [] 0).1, ctr) :=
    fun ctr => groupRestoreGo_stable cards hids [] ctr
  have hrun : ∀ d0 : Db, restoreCardsWithPolicy owner deck cards mode d0 =
      (((groupRestoreGo cards [] 0).1.foldl (applyEntryRestore owner deck mode)
          (0, loadExistingEntries d0 owner deck, d0)).1,
       ((groupRestoreGo cards [] 0).1.foldl (applyEntryRestore owner deck mode)
          (0, loadExistingEntries d0 owner deck, d0)).2.2) := by
    intro d0
    simp only [restoreCardsWithPolicy]
    rw [hstable d0.ctr, if_neg hmodeNR]
  obtain ⟨hkND, hkUU, hkNE⟩ :=
    groupRestoreGo_props cards hids [] 0 List.nodup_nil
      (fun p hp => nomatch hp) (fun p hp => nomatch hp)
  obtain ⟨hSat, hOK, hN', hF', hC'⟩ :=
    restoreFold_sat owner deck mode hmode (groupRestoreGo cards [] 0).1 0
      (loadExistingEntries db owner deck) db hkND hkUU hkNE
      (fun p _ => loadExistingEntries_lookup db owner deck p.1) hnodup hfresh
  have hD : (restoreCardsWithPolicy owner deck cards mode db).2 =
      ((groupRestoreGo cards [] 0).1.foldl (applyEntryRestore owner deck mode)
        (0, loadExistingEntries db owner deck, db)).2.2 := by
    rw [hrun db]
  have hnoop := restoreFold_noop owner deck mode hmode
    (groupRestoreGo cards [] 0).1 0
    (loadExistingEntries
      ((groupRestoreGo cards [] 0).1.foldl (applyEntryRestore owner deck mode)
        (0, loadExistingEntries db owner deck, db)).2.2 owner deck)
    ((groupRestoreGo cards [] 0).1.foldl (applyEntryRestore owner deck mode)
      (0, loadExistingEntries db owner deck, db)).2.2
    hkUU
    (fun p _ => loadExistingEntries_lookup _ owner deck p.1)
    hSat
  rw [hD, hrun, hnoop]

/-- The restore card of the C2 witness. -/
def cC2 : RestoreCard :=
  { entry_anki_id := some "uuid:e1"
    direction := some "forward"
    payload := some [("word", "casa")]
    created_at := some 5
    updated_at := some 5 }

/-- The starting state of the C2 witness: empty storage. -/
def dbC2 : Db := ⟨[], [], 0⟩

theorem C2_idempotent_witness :
    restoreCardsWithPolicy "u1" "dk1" [cC2] "prefer_newest"
        (restoreCardsWithPolicy "u1" "dk1" [cC2] "prefer_newest" dbC2).2 =
      (0, (restoreCardsWithPolicy "u1" "dk1" [cC2] "prefer_newest" dbC2).2) :=
  C2_idempotent "u1" "dk1" [cC2] "prefer_newest" dbC2 (Or.inl rfl)
    (by
      intro c hc
      rcases List.mem_singleton.mp hc with rfl
      exact ⟨"uuid:e1", rfl, by decide⟩)
    List.nodup_nil
    (by
      intro r hr
      cases hr)
